import Mathlib

/-!
# Verification of the RAG chunk-level evaluation core

Shallow embedding of the metric core of the repository
(`app.py` / `text_similarity.py` similarity scorer, `BM25_evaluate.py`
BM25 index and precision/recall evaluator, `F1_Metrics.py`,
`MRR_Metrics.py`, `NDCG_Metrics.py`).

Modelling conventions:
* Python `float` arithmetic is modelled with exact arithmetic: `ℚ` for the
  purely rational similarity pipeline, `ℝ` (with `Real.log` / `Real.logb`)
  where the code calls `math.log` / `np.log2`.
* Python strings are Lean `String`s; the cleaned texts are `List Char`.
* Python's `re` character class `[^\w\s一-鿿]` is modelled with
  `\w` read as ASCII letters/digits/underscore plus the CJK block
  `  U+4E00..U+9FFF` (the code's data is Chinese/ASCII; other Unicode
  word characters play no role in any claim).
* Python `dict` insertion-overwrite semantics (`MRR_Metrics.py`'s
  `chunk_positions`) are modelled by a reversed association list.
* Python list indexing with possibly negative indices (`BM25.score`) is
  modelled on `ℤ`, with `Option` capturing the `IndexError` case.
-/

-- Rational arithmetic must reduce in the kernel so that concrete runs of
-- the evaluator can be checked by `decide`.
attribute [local semireducible] Rat.add Rat.mul Rat.inv Rat.sub

/-! ## Character classes (`re` patterns of `app.py` / `BM25_evaluate.py`) -/

/-- CJK unified ideographs `一-鿿`, the class used by the cleaning
regex and the tokenizer. -/
def isCJK (c : Char) : Bool :=
  0x4e00 ≤ c.toNat && c.toNat ≤ 0x9fff

/-- Model of `\w` in the cleaning regex `[^\w\s一-鿿]`:
ASCII letters, digits, underscore (plus the CJK block, which the regex
lists separately but which is also matched by Python's Unicode `\w`). -/
def isWordChar (c : Char) : Bool :=
  (65 ≤ c.toNat && c.toNat ≤ 90) || (97 ≤ c.toNat && c.toNat ≤ 122) ||
  (48 ≤ c.toNat && c.toNat ≤ 57) || c.toNat == 95 || isCJK c

/-- Model of `\s` (ASCII part): space, tab, newline, carriage return,
vertical tab, form feed. -/
def isSpaceChar (c : Char) : Bool :=
  c.toNat == 32 || c.toNat == 9 || c.toNat == 10 ||
  c.toNat == 13 || c.toNat == 11 || c.toNat == 12

/-! ## Text cleaning (`clean_text` in `calculate_text_similarity`)

`cleaned = re.sub(r'[^\w\s一-鿿]', ' ', text)` then
`re.sub(r'\s+', ' ', cleaned).strip()` then `.lower()`. -/

/-- `re.sub(r'\s+', ' ', ·)`: replace every maximal whitespace run by a
single `' '`.  The flag records whether the previous character was
whitespace (i.e. we are inside a run). -/
def collapseWsAux (inRun : Bool) : List Char → List Char
  | [] => []
  | c :: cs =>
    if isSpaceChar c then
      if inRun then collapseWsAux true cs else ' ' :: collapseWsAux true cs
    else c :: collapseWsAux false cs

def collapseWs (cs : List Char) : List Char := collapseWsAux false cs

/-- Python `str.strip()`: drop whitespace at both ends. -/
def stripEnds (cs : List Char) : List Char :=
  ((cs.dropWhile isSpaceChar).reverse.dropWhile isSpaceChar).reverse

/-- `clean_text` from `calculate_text_similarity` (`app.py` lines 49-54,
identically in `text_similarity.py` and `_check_semantic_containment`):
substitute non-word non-space characters by a space, collapse whitespace,
strip, lowercase. -/
def cleanText (s : String) : List Char :=
  let substituted := s.data.map fun c =>
    if isWordChar c || isSpaceChar c then c else ' '
  (stripEnds (collapseWs substituted)).map Char.toLower

/-! ## Words and substring search -/

/-- Maximal runs of characters satisfying `p` (used with "non-space" to
model Python `str.split()`). -/
def extractRunsAux (p : Char → Bool) : List Char → List Char → List (List Char)
  | [], acc => if acc.isEmpty then [] else [acc.reverse]
  | c :: cs, acc =>
    if p c then extractRunsAux p cs (c :: acc)
    else if acc.isEmpty then extractRunsAux p cs []
    else acc.reverse :: extractRunsAux p cs []

def extractRuns (p : Char → Bool) (cs : List Char) : List (List Char) :=
  extractRunsAux p cs []

/-- Python `clean_text1.split()`: whitespace-separated words. -/
def wordsOf (cs : List Char) : List (List Char) :=
  extractRuns (fun c => !isSpaceChar c) cs

/-- Python `sub in s` for strings (substring containment). -/
def isSubstr (sub s : List Char) : Prop := sub <:+: s

instance (sub s : List Char) : Decidable (isSubstr sub s) :=
  List.decidableInfix sub s

/-- The partial-match scan of `calculate_text_similarity` (`app.py`
lines 86-91): `for i in range(len(shorter) - 5): for j in range(i + 5,
len(shorter) + 1): if shorter[i:j] in longer: max_match = max(...)`. -/
def maxMatch (shorter longer : List Char) : ℕ :=
  ((List.range (shorter.length - 5)).flatMap fun i =>
    ((List.range (shorter.length + 1)).filter fun j => i + 5 ≤ j).map fun j =>
      if isSubstr ((shorter.drop i).take (j - i)) longer then j - i else 0).foldr
    max 0

/-! ## The composite similarity scorer

`calculate_text_similarity` from `app.py` (lines 40-139), split into one
definition per named local of the Python function.  The process-wide
environment variable `SEMANTIC_CONTAINMENT_THRESHOLD` (default `0.9`) is
passed explicitly as `sct`. -/

/-- `jaccard_similarity` (lines 59-68): word-set Jaccard of the cleaned
texts, with the `if union > 0 else 0` guard. -/
def jaccard_similarity (c1 c2 : List Char) : ℚ :=
  let words1 := (wordsOf c1).toFinset
  let words2 := (wordsOf c2).toFinset
  let inter := (words1 ∩ words2).card
  let union := (words1 ∪ words2).card
  if 0 < union then (inter : ℚ) / (union : ℚ) else 0

/-- `char_similarity` (lines 70-75): character-set Jaccard. -/
def char_similarity (c1 c2 : List Char) : ℚ :=
  let chars1 := c1.toFinset
  let chars2 := c2.toFinset
  let charInter := (chars1 ∩ chars2).card
  let charUnion := (chars1 ∪ chars2).card
  if 0 < charUnion then (charInter : ℚ) / (charUnion : ℚ) else 0

/-- `substring_similarity` (lines 77-92): full-containment ratio of the
shorter cleaned text in the longer, else the best partial match of length
`≥ 5` found by the quadratic scan; only when both cleaned lengths
exceed `10`. -/
def substring_similarity (c1 c2 : List Char) : ℚ :=
  if 10 < c1.length ∧ 10 < c2.length then
    let shorter := if c1.length < c2.length then c1 else c2
    let longer := if c1.length < c2.length then c2 else c1
    if isSubstr shorter longer then (shorter.length : ℚ) / (longer.length : ℚ)
    else if longer ≠ [] then (maxMatch shorter longer : ℚ) / (longer.length : ℚ)
    else 0
  else 0

/-- The literal-containment override (lines 101-116): if the strictly
shorter cleaned text is a verbatim substring of the longer one, raise the
score to at least `0.8`. -/
def containment_boost (c1 c2 : List Char) (score : ℚ) : ℚ :=
  if c2.length < c1.length then
    if isSubstr c2 c1 then max score (8/10) else score
  else if c1.length < c2.length then
    if isSubstr c1 c2 then max score (8/10) else score
  else score

/-- `semantic_containment` (lines 121-131): the fraction of the smaller
word set contained in the larger one. -/
def semantic_containment_ratio (c1 c2 : List Char) : ℚ :=
  if (wordsOf c1).toFinset.card ≤ (wordsOf c2).toFinset.card then
    (((wordsOf c1).toFinset ∩ (wordsOf c2).toFinset).card : ℚ) /
      ((wordsOf c1).toFinset.card : ℚ)
  else
    (((wordsOf c2).toFinset ∩ (wordsOf c1).toFinset).card : ℚ) /
      ((wordsOf c2).toFinset.card : ℚ)

/-- The semantic-containment override (lines 118-137): if the smaller word
set is contained in the larger one up to ratio `≥ sct`, raise the score to
at least `min ratio 0.95`. -/
def semantic_boost (sct : ℚ) (c1 c2 : List Char) (score : ℚ) : ℚ :=
  if 0 < (wordsOf c1).toFinset.card ∧ 0 < (wordsOf c2).toFinset.card then
    if sct ≤ semantic_containment_ratio c1 c2 then
      max score (min (semantic_containment_ratio c1 c2) (95/100))
    else score
  else score

/-- `calculate_text_similarity` from `app.py` (lines 40-139): clean, guard
empty inputs and empty word sets, take the weighted sum
`0.4·jaccard + 0.3·char + 0.3·substring`, apply the two containment
overrides, clamp to at most `1`. -/
def calculate_text_similarity (sct : ℚ) (text1 text2 : String) : ℚ :=
  if text1 = "" ∨ text2 = "" then 0 else
  let c1 := cleanText text1
  let c2 := cleanText text2
  if (wordsOf c1).toFinset = ∅ ∨ (wordsOf c2).toFinset = ∅ then 0 else
  let final_similarity :=
    jaccard_similarity c1 c2 * (4/10) + char_similarity c1 c2 * (3/10) +
      substring_similarity c1 c2 * (3/10)
  min (semantic_boost sct c1 c2 (containment_boost c1 c2 final_similarity)) 1

namespace TextSimilarity

/-- `calculate_text_similarity` from `text_similarity.py` (lines 7-91):
identical to the `app.py` version up to the literal-containment override,
but with no semantic-containment override and no final clamp. -/
def calculate_text_similarity (text1 text2 : String) : ℚ :=
  if text1 = "" ∨ text2 = "" then 0 else
  let c1 := cleanText text1
  let c2 := cleanText text2
  if (wordsOf c1).toFinset = ∅ ∨ (wordsOf c2).toFinset = ∅ then 0 else
  let final_similarity :=
    jaccard_similarity c1 c2 * (4/10) + char_similarity c1 c2 * (3/10) +
      substring_similarity c1 c2 * (3/10)
  containment_boost c1 c2 final_similarity

end TextSimilarity

/-! ## The BM25 evaluator's precision/recall pipeline
(`BM25_evaluate.py`, `BM25Evaluator`)

Environment variables `SIMILARITY_THRESHOLD` (default `0.5`) and
`SEMANTIC_CONTAINMENT_THRESHOLD` (default `0.9`) are passed explicitly as
`t` and `sct`. -/

/-- `BM25Evaluator.calculate_relevance_score` (lines 204-223): guard empty
inputs, then delegate to the composite similarity. -/
def calculate_relevance_score (sct : ℚ) (retrieved_chunk reference_chunk : String) : ℚ :=
  if retrieved_chunk = "" ∨ reference_chunk = "" then 0
  else calculate_text_similarity sct retrieved_chunk reference_chunk

/-- The retrieved×reference similarity matrix (lines 312-319). -/
def similarityMatrix (sct : ℚ) (retrieved reference : List String) : List (List ℚ) :=
  retrieved.map fun rc => reference.map fun fc => calculate_relevance_score sct rc fc

/-- Python `max(l)` guarded by `if l else 0`, as in
`max(similarity_matrix[i]) if similarity_matrix[i] else 0`. -/
def pyMaxOr0 : List ℚ → ℚ
  | [] => 0
  | x :: xs => xs.foldl max x

/-- One row of `evaluate_precision_recall`'s sample loop
(lines 312-412): the per-sample classification and set metrics. -/
structure SampleEval where
  matrix : List (List ℚ)
  relevant : List (ℕ × ℤ × ℚ)    -- (retrieved_idx, reference_idx, relevance_score)
  irrelevant : List (ℕ × ℚ)      -- (retrieved_idx, max_relevance)
  missed : List (ℕ × ℚ × ℤ)      -- (reference_idx, max_relevance, best_retrieved_idx)
  matched_references : Finset ℤ
  total_relevance_score : ℚ
  precision : ℚ
  recall' : ℚ

/-- `max_similarity` for retrieved chunk `i` (line 327). -/
def rowMaxSim (matrix : List (List ℚ)) (i : ℕ) : ℚ :=
  pyMaxOr0 (matrix.getD i [])

/-- `best_ref_idx` for retrieved chunk `i` (line 328):
`similarity_matrix[i].index(max_similarity)`, `-1` on an empty row. -/
def rowBestRef (matrix : List (List ℚ)) (i : ℕ) : ℤ :=
  match matrix.getD i [] with
  | [] => -1
  | row => (row.indexOf (pyMaxOr0 row) : ℤ)

/-- The missed-chunk scan for reference chunk `j` (lines 366-373):
running maximum starting from `0` with `best_retrieved_idx = -1`,
updated on strict increase. -/
def refBest (matrix : List (List ℚ)) (r : ℕ) (j : ℕ) : ℚ × ℤ :=
  (List.range r).foldl
    (fun acc i =>
      let v := (matrix.getD i []).getD j 0
      if acc.1 < v then (v, (i : ℤ)) else acc)
    (0, -1)

/-- The body of `evaluate_precision_recall` for one sample
(lines 312-412), for `retrieved`/`reference` chunk lists, similarity
threshold `t`, semantic-containment threshold `sct`. -/
def evaluateSample (t sct : ℚ) (retrieved reference : List String) : SampleEval :=
  let matrix := similarityMatrix sct retrieved reference
  let r := retrieved.length
  let f := reference.length
  let relevantIdx := (List.range r).filter fun i => t < rowMaxSim matrix i
  let relevant := relevantIdx.map fun i => (i, rowBestRef matrix i, rowMaxSim matrix i)
  let irrelevant := ((List.range r).filter fun i => ¬ t < rowMaxSim matrix i).map
    fun i => (i, rowMaxSim matrix i)
  let total := (relevantIdx.map fun i => rowMaxSim matrix i).sum
  let missed := ((List.range f).filter fun j => (refBest matrix r j).1 ≤ t).map
    fun j => (j, refBest matrix r j)
  { matrix := matrix
    relevant := relevant
    irrelevant := irrelevant
    missed := missed
    matched_references := (relevantIdx.map fun i => rowBestRef matrix i).toFinset
    total_relevance_score := total
    precision := if retrieved ≠ [] then total / (r : ℚ) else 0
    recall' := if reference ≠ [] then total / (f : ℚ) else 0 }

/-- A sample row of the loaded dataframe:
`(user_input, retrieved_contexts, reference_contexts)`. -/
structure Sample where
  user_input : String
  retrieved_contexts : List String
  reference_contexts : List String

/-- The skip test of line 308: samples with empty retrieved or reference
lists are skipped (`continue`). -/
def sampleKept (s : Sample) : Prop :=
  s.retrieved_contexts ≠ [] ∧ s.reference_contexts ≠ []

instance (s : Sample) : Decidable (sampleKept s) := by
  unfold sampleKept; infer_instance

/-- Python `np.mean(l) if l else 0`. -/
def pyMeanOr0 (l : List ℚ) : ℚ :=
  if l ≠ [] then l.sum / (l.length : ℚ) else 0

/-- `evaluate_precision_recall`'s collected per-sample precision scores
(lines 301-392): one entry per non-skipped sample, in order. -/
def precision_scores (t sct : ℚ) (samples : List Sample) : List ℚ :=
  (samples.filter fun s => sampleKept s).map fun s =>
    (evaluateSample t sct s.retrieved_contexts s.reference_contexts).precision

/-- Collected per-sample recall scores. -/
def recall_scores (t sct : ℚ) (samples : List Sample) : List ℚ :=
  (samples.filter fun s => sampleKept s).map fun s =>
    (evaluateSample t sct s.retrieved_contexts s.reference_contexts).recall'

/-- `results['avg_precision']` (line 415). -/
def avg_precision (t sct : ℚ) (samples : List Sample) : ℚ :=
  pyMeanOr0 (precision_scores t sct samples)

/-- `results['avg_recall']` (line 416). -/
def avg_recall (t sct : ℚ) (samples : List Sample) : ℚ :=
  pyMeanOr0 (recall_scores t sct samples)

/-- `results['avg_f1']` (line 417): the harmonic-mean formula applied to
the two dataset-level averages. -/
def avg_f1 (t sct : ℚ) (samples : List Sample) : ℚ :=
  let p := avg_precision t sct samples
  let r := avg_recall t sct samples
  if 0 < p + r then 2 * (p * r) / (p + r) else 0

/-! ## `F1_Metrics.py` -/

/-- `calculate_f1_score` (`F1_Metrics.py` lines 32-50 and 130-148). -/
def calculate_f1_score (precision recall' : ℚ) : ℚ :=
  if precision + recall' = 0 then 0
  else 2 * (precision * recall') / (precision + recall')

/-- The per-sample F1 list built by
`calculate_f1_scores_from_bm25_results` (lines 75-80). -/
def f1_scores (t sct : ℚ) (samples : List Sample) : List ℚ :=
  List.zipWith calculate_f1_score
    (precision_scores t sct samples) (recall_scores t sct samples)

/-- `results['avg_f1']` of `calculate_f1_scores_from_bm25_results`
(lines 64-69): `calculate_f1_score` applied to the dataset-level average
precision and recall. -/
def f1_avg_f1 (t sct : ℚ) (samples : List Sample) : ℚ :=
  calculate_f1_score (avg_precision t sct samples) (avg_recall t sct samples)

/-! ## The BM25 index (`BM25_evaluate.py`, class `BM25`)

The fitted state of `BM25(k1=1.5, b=0.75).fit(corpus)` is modelled by
derived functions of the raw corpus. `math.log` is `Real.log`. -/

namespace BM25

/-- `k1` (line 34, default `1.5`). -/
def k1 : ℚ := 3/2

/-- `b` (line 35, default `0.75`). -/
def b : ℚ := 3/4

/-- The book-title matches `re.findall(r'《([^》]+)》', text)`: each match
is a maximal nonempty run of non-`》` characters between a `《` and the
next `》`; scanning resumes after the closing `》`; an unclosed `《` or an
empty pair matches nothing.  Implemented as a single left-to-right pass;
the accumulator holds the pending content (reversed) once a `《` has been
seen. -/
def bookTitlesAux : List Char → Option (List Char) → List (List Char)
  | [], _ => []
  | c :: cs, none =>
    if c = '《' then bookTitlesAux cs (some []) else bookTitlesAux cs none
  | c :: cs, some acc =>
    if c = '》' then
      if acc = [] then bookTitlesAux cs none
      else acc.reverse :: bookTitlesAux cs none
    else bookTitlesAux cs (some (c :: acc))

def bookTitles (l : List Char) : List (List Char) :=
  bookTitlesAux l none

/-- The fixed keyword list of `_tokenize` (line 103). -/
def action_words : List String :=
  ["分享", "推荐", "读了", "读了本", "最近读了", "书籍", "书", "读书", "阅读", "读后感"]

/-- `BM25._tokenize` (lines 72-114): lowercase, then union of CJK
characters, Latin-letter runs, digit runs, book-title contents and
keywords found as substrings; `list(set(...))` is modelled by `dedup`
(first-occurrence order; all downstream uses are order-independent),
and tokens of length `< 1` are filtered out. -/
def tokenize (text : String) : List String :=
  if text = "" then []
  else
    let t := text.data.map Char.toLower
    let chinese_chars := (t.filter isCJK).map fun c => String.mk [c]
    let english_words :=
      (extractRuns (fun c =>
        (97 ≤ c.toNat && c.toNat ≤ 122) || (65 ≤ c.toNat && c.toNat ≤ 90)) t).map String.mk
    let numbers :=
      (extractRuns (fun c => 48 ≤ c.toNat && c.toNat ≤ 57) t).map String.mk
    let book_titles := (bookTitles t).map String.mk
    let keywords := action_words.filter fun w => isSubstr w.data t
    let tokens := chinese_chars ++ english_words ++ numbers ++ book_titles ++ keywords
    (tokens.dedup).filter fun tok => 1 ≤ tok.length

/-- `self.corpus` after `fit` (line 50): tokenized documents. -/
def corpusTokens (corpus : List String) : List (List String) :=
  corpus.map tokenize

/-- `self.doc_len` (line 54). -/
def doc_len (corpus : List String) : List ℕ :=
  (corpusTokens corpus).map List.length

/-- `self.avgdl` (line 55): `0` for an empty corpus. -/
def avgdl (corpus : List String) : ℚ :=
  if 0 < corpus.length then ((doc_len corpus).sum : ℚ) / (corpus.length : ℚ) else 0

/-- Document frequency of a token (lines 59-66). -/
def df (corpus : List String) (w : String) : ℕ :=
  (corpusTokens corpus).countP fun d => w ∈ d

/-- `self.idf.get(token, 0)` (lines 68-70, 138): the IDF dictionary holds
`ln((N - df + 0.5)/(df + 0.5))` for every token occurring in the corpus,
and `.get` defaults to `0` for the rest. -/
noncomputable def idf (corpus : List String) (w : String) : ℝ :=
  if 0 < df corpus w then
    Real.log ((((corpus.length : ℚ) - (df corpus w : ℚ) + 1/2) / ((df corpus w : ℚ) + 1/2) : ℚ) : ℝ)
  else 0

/-- `BM25.score` (lines 116-145) with Python list-index semantics:
`doc_index >= corpus_size` returns `0`; a negative `doc_index ≥ -N`
accesses document `N + doc_index`; `doc_index < -N` raises `IndexError`
(modelled as `none`). -/
noncomputable def score (corpus : List String) (query : String) (doc_index : ℤ) : Option ℝ :=
  let n := corpus.length
  if (n : ℤ) ≤ doc_index then some 0
  else if doc_index < -(n : ℤ) then none
  else
    let i : ℕ := (if doc_index < 0 then doc_index + n else doc_index).toNat
    let docToks := (corpusTokens corpus).getD i []
    let dl : ℚ := (docToks.length : ℚ)
    some (((tokenize query).map fun tok =>
      if 0 < docToks.count tok then
        let tf : ℚ := (docToks.count tok : ℚ)
        idf corpus tok *
          (((tf * (k1 + 1)) / (tf + k1 * (1 - b + b * (dl / avgdl corpus))) : ℚ) : ℝ)
      else 0).sum)

end BM25

/-- `is_chunk_relevant` (`BM25_evaluate.py` lines 664-686): fit a
one-document corpus and score the query against it; returns
`(score > threshold, score)`, and `(False, 0.0)` on empty input. -/
noncomputable def is_chunk_relevant (query chunk : String) (threshold : ℚ) : Prop × ℝ :=
  if chunk = "" ∨ query = "" then (False, 0)
  else
    let s := (BM25.score [chunk] query 0).getD 0
    ((threshold : ℝ) < s, s)

/-! ## `MRR_Metrics.py` -/

open Classical in
/-- `get_relevant_chunks_for_query` (`MRR_Metrics.py` lines 60-81):
the reference chunks passing the permissive BM25 test
(`is_chunk_relevant` with threshold `-10.0`). -/
noncomputable def get_relevant_chunks_for_query
    (query : String) (reference_contexts : List String) : List String :=
  if query = "" ∨ reference_contexts = [] then []
  else reference_contexts.filter fun c => decide (is_chunk_relevant query c (-10)).1

/-- The `chunk_positions` dictionary (lines 135-139): content-keyed, so a
later occurrence of the same string overwrites an earlier one; Python
dict lookup is modelled by `lookup` on the reversed association list. -/
def chunk_positions (retrieved_contexts : List String) (c : String) : ℕ :=
  (((retrieved_contexts.enum.map fun p => (p.2, retrieved_contexts.length - p.1)).reverse).lookup
    c).getD 0

/-- Whether retrieved chunk content `c` matches some BM25-qualifying
reference chunk above the similarity threshold (the test of
lines 145-151). -/
def mrrQualifies (t sct : ℚ) (relevant_chunks : List String) (c : String) : Prop :=
  ∃ r ∈ relevant_chunks, t < calculate_relevance_score sct c r

instance (t sct : ℚ) (relevant_chunks : List String) (c : String) :
    Decidable (mrrQualifies t sct relevant_chunks c) := by
  unfold mrrQualifies; infer_instance

/-- `calculate_reciprocal_rank` (`MRR_Metrics.py` lines 107-164). -/
noncomputable def calculate_reciprocal_rank
    (t sct : ℚ) (query : String) (retrieved_contexts reference_contexts : List String) : ℚ :=
  let relevant_chunks := get_relevant_chunks_for_query query reference_contexts
  if relevant_chunks = [] then 0
  else if retrieved_contexts = [] then 0
  else
    let best : Option ℕ := retrieved_contexts.foldl
      (fun acc c =>
        if mrrQualifies t sct relevant_chunks c then
          match acc with
          | none => some (chunk_positions retrieved_contexts c)
          | some bp =>
            if chunk_positions retrieved_contexts c < bp then
              some (chunk_positions retrieved_contexts c)
            else acc
        else acc)
      none
    match best with
    | some p => 1 / (p : ℚ)
    | none => 0

/-! ## `NDCG_Metrics.py` -/

/-- `calculate_relevance_scores` (`NDCG_Metrics.py` lines 108-137): the
binary relevance vector of the retrieved chunks, in original order.
The `query` parameter is unused by the source body as well. -/
def calculate_relevance_scores
    (t sct : ℚ) (query : String) (retrieved_contexts reference_contexts : List String) :
    List ℚ :=
  if retrieved_contexts = [] ∨ reference_contexts = [] then []
  else retrieved_contexts.map fun rc =>
    let max_relevance := reference_contexts.foldl
      (fun m fc =>
        let v := calculate_relevance_score sct rc fc
        if m < v then v else m) 0
    if t < max_relevance then (1 : ℚ) else 0

/-- `calculate_dcg` (lines 139-161): reversed positions, the chunk at
0-based index `i` of a length-`n` vector gets position `n - i` and the
gain/discount formula `(2^rel - 1)/log2(position + 1)`.  The Python loop
accumulates exactly these terms, summed here over `Finset.range`. -/
noncomputable def calculate_dcg (relevance_scores : List ℚ) : ℝ :=
  if relevance_scores = [] then 0
  else ∑ i ∈ Finset.range relevance_scores.length,
    ((2 : ℝ) ^ ((relevance_scores.getD i 0 : ℚ) : ℝ) - 1) /
      Real.logb 2 ((relevance_scores.length - i + 1 : ℕ) : ℝ)

/-- `calculate_idcg` (lines 163-186): sort descending
(`sorted(·, reverse=True)`, modelled by stable insertion sort), then
forward positions `i + 1`. -/
noncomputable def calculate_idcg (relevance_scores : List ℚ) : ℝ :=
  if relevance_scores = [] then 0
  else
    let ideal_scores := List.insertionSort (fun a b => b ≤ a) relevance_scores
    ∑ i ∈ Finset.range ideal_scores.length,
      ((2 : ℝ) ^ ((ideal_scores.getD i 0 : ℚ) : ℝ) - 1) /
        Real.logb 2 ((i + 2 : ℕ) : ℝ)

/-- Lines 219-223 of `calculate_ndcg`: `dcg / idcg` when `idcg > 0`,
else `0`. -/
noncomputable def calculate_ndcg_core (relevance_scores : List ℚ) : ℝ :=
  if 0 < calculate_idcg relevance_scores then
    calculate_dcg relevance_scores / calculate_idcg relevance_scores
  else 0

/-- `calculate_ndcg` (lines 188-251), NDCG value only. -/
noncomputable def calculate_ndcg
    (t sct : ℚ) (query : String) (retrieved_contexts reference_contexts : List String) : ℝ :=
  if retrieved_contexts = [] ∨ reference_contexts = [] then 0
  else calculate_ndcg_core
    (calculate_relevance_scores t sct query retrieved_contexts reference_contexts)

/-! ## Helper lemmas: bounds of the similarity scorer -/

lemma foldr_max_le_of {L : List ℕ} {b : ℕ} (h : ∀ x ∈ L, x ≤ b) :
    L.foldr max 0 ≤ b := by
  induction L with
  | nil => exact Nat.zero_le b
  | cons x xs ih =>
    simp only [List.foldr_cons, max_le_iff]
    exact ⟨h x (by simp), ih fun z hz => h z (by simp [hz])⟩

lemma maxMatch_le_length (s l : List Char) : maxMatch s l ≤ s.length := by
  apply foldr_max_le_of
  intro x hx
  simp only [maxMatch, List.mem_flatMap, List.mem_map, List.mem_filter,
    List.mem_range] at hx
  obtain ⟨i, _, j, ⟨hj, _⟩, rfl⟩ := hx
  split <;> omega

lemma ratio_if_bounds {a b : ℕ} (hab : a ≤ b) :
    0 ≤ (if 0 < b then (a : ℚ) / (b : ℚ) else 0) ∧
      (if 0 < b then (a : ℚ) / (b : ℚ) else 0) ≤ 1 := by
  split_ifs with h
  · have hb : (0 : ℚ) < (b : ℚ) := by exact_mod_cast h
    refine ⟨by positivity, ?_⟩
    rw [div_le_one hb]
    exact_mod_cast hab
  · norm_num

lemma jaccard_similarity_bounds (c1 c2 : List Char) :
    0 ≤ jaccard_similarity c1 c2 ∧ jaccard_similarity c1 c2 ≤ 1 := by
  unfold jaccard_similarity
  exact ratio_if_bounds (Finset.card_le_card Finset.inter_subset_union)

lemma char_similarity_bounds (c1 c2 : List Char) :
    0 ≤ char_similarity c1 c2 ∧ char_similarity c1 c2 ≤ 1 := by
  unfold char_similarity
  exact ratio_if_bounds (Finset.card_le_card Finset.inter_subset_union)

lemma substring_similarity_bounds (c1 c2 : List Char) :
    0 ≤ substring_similarity c1 c2 ∧ substring_similarity c1 c2 ≤ 1 := by
  unfold substring_similarity
  by_cases h10 : 10 < c1.length ∧ 10 < c2.length
  · rw [if_pos h10]
    by_cases hlt : c1.length < c2.length <;> simp only [hlt, if_true, if_false]
    · have hlen : c1.length ≤ c2.length := le_of_lt hlt
      have hpos : (0 : ℚ) < (c2.length : ℚ) := by
        have : 0 < c2.length := by omega
        exact_mod_cast this
      split_ifs with hsub hne
      · exact ⟨by positivity, by rw [div_le_one hpos]; exact_mod_cast hlen⟩
      · have hm : maxMatch c1 c2 ≤ c2.length :=
          le_trans (maxMatch_le_length c1 c2) hlen
        exact ⟨by positivity, by rw [div_le_one hpos]; exact_mod_cast hm⟩
      · norm_num
    · have hlen : c2.length ≤ c1.length := le_of_not_lt hlt
      have hpos : (0 : ℚ) < (c1.length : ℚ) := by
        have : 0 < c1.length := by omega
        exact_mod_cast this
      split_ifs with hsub hne
      · exact ⟨by positivity, by rw [div_le_one hpos]; exact_mod_cast hlen⟩
      · have hm : maxMatch c2 c1 ≤ c1.length :=
          le_trans (maxMatch_le_length c2 c1) hlen
        exact ⟨by positivity, by rw [div_le_one hpos]; exact_mod_cast hm⟩
      · norm_num
  · rw [if_neg h10]; norm_num

lemma containment_boost_bounds (c1 c2 : List Char) {score : ℚ}
    (h0 : 0 ≤ score) (h1 : score ≤ 1) :
    0 ≤ containment_boost c1 c2 score ∧ containment_boost c1 c2 score ≤ 1 := by
  unfold containment_boost
  split_ifs <;>
    first
      | exact ⟨h0, h1⟩
      | exact ⟨le_max_of_le_left h0, max_le h1 (by norm_num)⟩

lemma semantic_boost_bounds (sct : ℚ) (c1 c2 : List Char) {score : ℚ}
    (h0 : 0 ≤ score) (h1 : score ≤ 1) :
    0 ≤ semantic_boost sct c1 c2 score ∧ semantic_boost sct c1 c2 score ≤ 1 := by
  unfold semantic_boost
  split_ifs with hw hr
  · refine ⟨le_max_of_le_left h0, max_le h1 ?_⟩
    exact le_trans (min_le_right _ _) (by norm_num)
  · exact ⟨h0, h1⟩
  · exact ⟨h0, h1⟩

lemma weighted_sum_bounds (c1 c2 : List Char) :
    0 ≤ jaccard_similarity c1 c2 * (4/10) + char_similarity c1 c2 * (3/10) +
        substring_similarity c1 c2 * (3/10) ∧
      jaccard_similarity c1 c2 * (4/10) + char_similarity c1 c2 * (3/10) +
        substring_similarity c1 c2 * (3/10) ≤ 1 := by
  have hj := jaccard_similarity_bounds c1 c2
  have hc := char_similarity_bounds c1 c2
  have hs := substring_similarity_bounds c1 c2
  constructor <;> nlinarith [hj.1, hj.2, hc.1, hc.2, hs.1, hs.2]

/-- The similarity scorer of `app.py` stays in `[0, 1]`. -/
lemma sim_bounds (sct : ℚ) (x y : String) :
    0 ≤ calculate_text_similarity sct x y ∧ calculate_text_similarity sct x y ≤ 1 := by
  unfold calculate_text_similarity
  by_cases h1 : x = "" ∨ y = ""
  case _ => rw [if_pos h1]; norm_num
  all_goals rw [if_neg h1]
  all_goals by_cases h2 : (wordsOf (cleanText x)).toFinset = ∅ ∨
    (wordsOf (cleanText y)).toFinset = ∅
  case _ => rw [if_pos h2]; norm_num
  all_goals rw [if_neg h2]
  all_goals
    have hw := weighted_sum_bounds (cleanText x) (cleanText y)
  all_goals
    have hcb := containment_boost_bounds (cleanText x) (cleanText y) hw.1 hw.2
  all_goals
    have hsb := semantic_boost_bounds sct (cleanText x) (cleanText y) hcb.1 hcb.2
  all_goals exact ⟨le_min hsb.1 (by norm_num), min_le_right _ 1⟩

lemma sim_nonneg (sct : ℚ) (x y : String) : 0 ≤ calculate_text_similarity sct x y :=
  (sim_bounds sct x y).1

lemma sim_le_one (sct : ℚ) (x y : String) : calculate_text_similarity sct x y ≤ 1 :=
  (sim_bounds sct x y).2

/-- The similarity scorer of `text_similarity.py` stays in `[0, 1]` even
though it has no final clamp. -/
lemma simTS_bounds (x y : String) :
    0 ≤ TextSimilarity.calculate_text_similarity x y ∧
      TextSimilarity.calculate_text_similarity x y ≤ 1 := by
  unfold TextSimilarity.calculate_text_similarity
  by_cases h1 : x = "" ∨ y = ""
  case _ => rw [if_pos h1]; norm_num
  all_goals rw [if_neg h1]
  all_goals by_cases h2 : (wordsOf (cleanText x)).toFinset = ∅ ∨
    (wordsOf (cleanText y)).toFinset = ∅
  case _ => rw [if_pos h2]; norm_num
  all_goals rw [if_neg h2]
  all_goals
    have hw := weighted_sum_bounds (cleanText x) (cleanText y)
  all_goals exact containment_boost_bounds (cleanText x) (cleanText y) hw.1 hw.2

/-- Degenerate inputs score `0` in `app.py`'s scorer. -/
lemma sim_eq_zero_of_degenerate (sct : ℚ) (x y : String)
    (h : x = "" ∨ y = "" ∨ cleanText x = [] ∨ cleanText y = []) :
    calculate_text_similarity sct x y = 0 := by
  unfold calculate_text_similarity
  rcases h with h | h | h | h
  · rw [if_pos (Or.inl h)]
  · rw [if_pos (Or.inr h)]
  · by_cases h1 : x = "" ∨ y = ""
    · rw [if_pos h1]
    · rw [if_neg h1, if_pos (Or.inl (show (wordsOf (cleanText x)).toFinset = ∅ by
        rw [h]; decide))]
  · by_cases h1 : x = "" ∨ y = ""
    · rw [if_pos h1]
    · rw [if_neg h1, if_pos (Or.inr (show (wordsOf (cleanText y)).toFinset = ∅ by
        rw [h]; decide))]

/-- Degenerate inputs score `0` in `text_similarity.py`'s scorer. -/
lemma simTS_eq_zero_of_degenerate (x y : String)
    (h : x = "" ∨ y = "" ∨ cleanText x = [] ∨ cleanText y = []) :
    TextSimilarity.calculate_text_similarity x y = 0 := by
  unfold TextSimilarity.calculate_text_similarity
  rcases h with h | h | h | h
  · rw [if_pos (Or.inl h)]
  · rw [if_pos (Or.inr h)]
  · by_cases h1 : x = "" ∨ y = ""
    · rw [if_pos h1]
    · rw [if_neg h1, if_pos (Or.inl (show (wordsOf (cleanText x)).toFinset = ∅ by
        rw [h]; decide))]
  · by_cases h1 : x = "" ∨ y = ""
    · rw [if_pos h1]
    · rw [if_neg h1, if_pos (Or.inr (show (wordsOf (cleanText y)).toFinset = ∅ by
        rw [h]; decide))]

lemma calculate_relevance_score_nonneg (sct : ℚ) (a b : String) :
    0 ≤ calculate_relevance_score sct a b := by
  unfold calculate_relevance_score
  split_ifs
  · exact le_refl 0
  · exact sim_nonneg sct a b

lemma calculate_relevance_score_le_one (sct : ℚ) (a b : String) :
    calculate_relevance_score sct a b ≤ 1 := by
  unfold calculate_relevance_score
  split_ifs
  · norm_num
  · exact sim_le_one sct a b

/-- **C7** (confirmed): for all input strings `x` and `y`, both versions of
`calculate_text_similarity` (in `app.py` and `text_similarity.py`) return a
value in `[0, 1]`, and return `0` whenever either input is the empty string
or cleans to the empty string. -/
theorem C7_similarity_bounded (sct : ℚ) (x y : String) :
    (0 ≤ calculate_text_similarity sct x y ∧ calculate_text_similarity sct x y ≤ 1) ∧
    (0 ≤ TextSimilarity.calculate_text_similarity x y ∧
      TextSimilarity.calculate_text_similarity x y ≤ 1) ∧
    ((x = "" ∨ y = "" ∨ cleanText x = [] ∨ cleanText y = []) →
      calculate_text_similarity sct x y = 0 ∧
        TextSimilarity.calculate_text_similarity x y = 0) :=
  ⟨sim_bounds sct x y, simTS_bounds x y,
   fun h => ⟨sim_eq_zero_of_degenerate sct x y h, simTS_eq_zero_of_degenerate x y h⟩⟩

/-- Witness for C7 at concrete inputs (empty string against `"abc"`),
discharging the degeneracy hypothesis by `rfl`. -/
theorem C7_similarity_bounded_witness :
    (0 ≤ calculate_text_similarity (9/10) "" "abc" ∧
      calculate_text_similarity (9/10) "" "abc" ≤ 1) ∧
    calculate_text_similarity (9/10) "" "abc" = 0 ∧
    TextSimilarity.calculate_text_similarity "" "abc" = 0 := by
  have h := C7_similarity_bounded (9/10) "" "abc"
  exact ⟨h.1, h.2.2 (Or.inl rfl)⟩

/-! ## Helper lemmas: self-similarity (claim C6) -/

lemma toLower_toNat_of_upper {c : Char} (h1 : 65 ≤ c.toNat) (h2 : c.toNat ≤ 90) :
    (Char.toLower c).toNat = c.toNat + 32 := by
  have hv : (c.toNat + 32).isValidChar := by
    left; omega
  simp only [Char.toLower, ge_iff_le, h1, h2, and_self, if_true, if_pos]
  rw [Char.ofNat, dif_pos hv]
  rfl

lemma toLower_eq_self_of_not_upper {c : Char} (h : ¬(65 ≤ c.toNat ∧ c.toNat ≤ 90)) :
    Char.toLower c = c := by
  simp only [Char.toLower, ge_iff_le]
  rw [if_neg h]

/-- Lowercasing does not change whether a character is whitespace. -/
lemma isSpaceChar_toLower (c : Char) : isSpaceChar (Char.toLower c) = isSpaceChar c := by
  by_cases hc : 65 ≤ c.toNat ∧ c.toNat ≤ 90
  · have h1 := toLower_toNat_of_upper hc.1 hc.2
    unfold isSpaceChar
    rw [h1]
    have hA : (c.toNat + 32 == 32 || c.toNat + 32 == 9 || c.toNat + 32 == 10 ||
        c.toNat + 32 == 13 || c.toNat + 32 == 11 || c.toNat + 32 == 12) = false := by
      simp only [Bool.or_eq_false_iff, beq_eq_false_iff_ne, ne_eq]
      omega
    have hB : (c.toNat == 32 || c.toNat == 9 || c.toNat == 10 ||
        c.toNat == 13 || c.toNat == 11 || c.toNat == 12) = false := by
      simp only [Bool.or_eq_false_iff, beq_eq_false_iff_ne, ne_eq]
      omega
    rw [hA, hB]
  · rw [toLower_eq_self_of_not_upper hc]

lemma extractRunsAux_ne_nil_of_acc (p : Char → Bool) (l : List Char)
    {acc : List Char} (h : acc ≠ []) : extractRunsAux p l acc ≠ [] := by
  induction l generalizing acc with
  | nil => simpa [extractRunsAux, List.isEmpty_iff] using h
  | cons c cs ih =>
    unfold extractRunsAux
    split_ifs with h1 h2
    · exact ih (by simp)
    · exact absurd (List.isEmpty_iff.mp h2) h
    · simp

lemma extractRuns_ne_nil (p : Char → Bool) (l : List Char)
    (h : ∃ c ∈ l, p c = true) : extractRuns p l ≠ [] := by
  induction l with
  | nil => simp at h
  | cons c cs ih =>
    obtain ⟨d, hd, hpd⟩ := h
    unfold extractRuns extractRunsAux
    split_ifs with h1 h2
    · exact extractRunsAux_ne_nil_of_acc p cs (by simp)
    · rcases List.mem_cons.mp hd with rfl | hd'
      · rw [hpd] at h1; exact absurd rfl h1
      · exact ih ⟨d, hd', hpd⟩
    · simp at h2

/-- A nonempty cleaned text contains a non-whitespace character (its last
character, exposed by `strip`). -/
lemma cleanText_has_nonspace (s : String) (h : cleanText s ≠ []) :
    ∃ c ∈ cleanText s, isSpaceChar c = false := by
  unfold cleanText at h ⊢
  set Z := collapseWs (s.data.map fun c =>
    if isWordChar c || isSpaceChar c then c else ' ') with hZ
  set B := (Z.dropWhile isSpaceChar).reverse.dropWhile isSpaceChar with hB
  have hBne : B ≠ [] := by
    intro hBe
    apply h
    simp only [stripEnds, ← hZ, ← hB, hBe]
    rfl
  refine ⟨Char.toLower (B.head hBne), ?_, ?_⟩
  · simp only [stripEnds, ← hZ, ← hB, List.mem_map]
    exact ⟨B.head hBne, by rw [List.mem_reverse]; exact List.head_mem hBne, rfl⟩
  · rw [isSpaceChar_toLower]
    exact List.head_dropWhile_not isSpaceChar _ hBne

lemma wordsOf_cleanText_ne_nil (s : String) (h : cleanText s ≠ []) :
    wordsOf (cleanText s) ≠ [] := by
  obtain ⟨c, hc, hcs⟩ := cleanText_has_nonspace s h
  exact extractRuns_ne_nil _ _ ⟨c, hc, by simp [hcs]⟩

lemma jaccard_similarity_self {c : List Char} (h : wordsOf c ≠ []) :
    jaccard_similarity c c = 1 := by
  simp only [jaccard_similarity]
  have hcard : 0 < (wordsOf c).toFinset.card := by
    rcases List.exists_mem_of_ne_nil _ h with ⟨w, hw⟩
    exact Finset.card_pos.mpr ⟨w, List.mem_toFinset.mpr hw⟩
  rw [Finset.inter_self, Finset.union_self, if_pos hcard]
  rw [div_self]
  exact_mod_cast hcard.ne'

lemma char_similarity_self {c : List Char} (h : c ≠ []) :
    char_similarity c c = 1 := by
  simp only [char_similarity]
  have hcard : 0 < c.toFinset.card := by
    rcases List.exists_mem_of_ne_nil _ h with ⟨w, hw⟩
    exact Finset.card_pos.mpr ⟨w, List.mem_toFinset.mpr hw⟩
  rw [Finset.inter_self, Finset.union_self, if_pos hcard]
  rw [div_self]
  exact_mod_cast hcard.ne'

lemma substring_similarity_self {c : List Char} (h : 10 < c.length) :
    substring_similarity c c = 1 := by
  simp only [substring_similarity]
  rw [if_pos ⟨h, h⟩]
  simp only [lt_irrefl, if_false]
  rw [if_pos (show isSubstr c c from List.infix_refl c)]
  rw [div_self]
  have : 0 < c.length := by omega
  exact_mod_cast this.ne'

lemma containment_boost_self (c : List Char) (score : ℚ) :
    containment_boost c c score = score := by
  unfold containment_boost
  simp [lt_irrefl]

lemma semantic_boost_of_one (sct : ℚ) (c1 c2 : List Char) :
    semantic_boost sct c1 c2 1 = 1 := by
  unfold semantic_boost
  split_ifs
  · exact max_eq_left (le_trans (min_le_right _ _) (by norm_num))
  · rfl
  · rfl

/-- **C6 counterexample**: a string of `12` punctuation characters has raw
length greater than `10` but cleans to the empty string, so its
self-similarity is `0`, not `1` — refuting the claim as stated for raw
length `> 10`. -/
theorem C6_self_similarity_counterexample :
    10 < "!!!!!!!!!!!!".length ∧
      calculate_text_similarity (9/10) "!!!!!!!!!!!!" "!!!!!!!!!!!!" ≠ 1 := by
  constructor
  · decide
  · decide

/-- **C6 amended** (the clean-length version that the code satisfies): for
every string whose *cleaned* text is longer than `10` characters,
self-similarity is exactly `1`: word and character Jaccard are `1`,
the substring containment is `1`, and neither override can lower the
clamped total below `1`. -/
theorem C6_self_similarity_one (sct : ℚ) (s : String)
    (h : 10 < (cleanText s).length) :
    calculate_text_similarity sct s s = 1 := by
  have hcne : cleanText s ≠ [] := by
    intro he
    rw [he] at h
    simp at h
  have hwne := wordsOf_cleanText_ne_nil s hcne
  have hsne : s ≠ "" := fun he => hcne (by rw [he]; rfl)
  have hfne : (wordsOf (cleanText s)).toFinset ≠ ∅ :=
    fun he => hwne ((List.toFinset_eq_empty_iff _).mp he)
  unfold calculate_text_similarity
  rw [if_neg (by rw [not_or]; exact ⟨hsne, hsne⟩),
    if_neg (by rw [not_or]; exact ⟨hfne, hfne⟩)]
  rw [jaccard_similarity_self hwne, char_similarity_self hcne,
    substring_similarity_self h]
  have hone : (1 : ℚ) * (4/10) + 1 * (3/10) + 1 * (3/10) = 1 := by norm_num
  rw [hone]
  dsimp only
  rw [containment_boost_self, semantic_boost_of_one, min_self]

/-- Witness for the amended C6 at a concrete string of cleaned length
`12`. -/
theorem C6_self_similarity_one_witness :
    10 < (cleanText "abcdefghijkl").length ∧
      calculate_text_similarity (9/10) "abcdefghijkl" "abcdefghijkl" = 1 :=
  ⟨by decide, C6_self_similarity_one (9/10) "abcdefghijkl" (by decide)⟩

/-! ## Helper lemmas: symmetry of the similarity components (claim C10) -/

lemma jaccard_similarity_comm (c1 c2 : List Char) :
    jaccard_similarity c1 c2 = jaccard_similarity c2 c1 := by
  simp only [jaccard_similarity]
  rw [Finset.inter_comm, Finset.union_comm]

lemma char_similarity_comm (c1 c2 : List Char) :
    char_similarity c1 c2 = char_similarity c2 c1 := by
  simp only [char_similarity]
  rw [Finset.inter_comm, Finset.union_comm]

lemma semantic_containment_ratio_comm (c1 c2 : List Char) :
    semantic_containment_ratio c1 c2 = semantic_containment_ratio c2 c1 := by
  unfold semantic_containment_ratio
  rcases le_or_lt (wordsOf c1).toFinset.card (wordsOf c2).toFinset.card with h | h
  · rcases eq_or_lt_of_le h with he | hlt
    · rw [if_pos h, if_pos he.ge, he, Finset.inter_comm]
    · rw [if_pos h, if_neg (not_le.mpr hlt)]
  · rw [if_neg (not_le.mpr h), if_pos h.le]

lemma semantic_boost_comm (sct : ℚ) (c1 c2 : List Char) (v : ℚ) :
    semantic_boost sct c1 c2 v = semantic_boost sct c2 c1 v := by
  unfold semantic_boost
  rw [semantic_containment_ratio_comm]
  exact if_congr and_comm rfl rfl

lemma substring_similarity_comm_of_ne {c1 c2 : List Char}
    (h : c1.length ≠ c2.length) :
    substring_similarity c1 c2 = substring_similarity c2 c1 := by
  unfold substring_similarity
  rcases lt_or_gt_of_ne h with hlt | hlt
  · have h2 : ¬ c2.length < c1.length := Nat.lt_asymm hlt
    rw [if_pos hlt, if_pos hlt, if_neg h2, if_neg h2]
    exact if_congr and_comm rfl rfl
  · have h2 : ¬ c1.length < c2.length := Nat.lt_asymm hlt
    rw [if_neg h2, if_neg h2, if_pos hlt, if_pos hlt]
    exact if_congr and_comm rfl rfl

lemma containment_boost_comm_of_ne {c1 c2 : List Char} (v : ℚ)
    (h : c1.length ≠ c2.length) :
    containment_boost c1 c2 v = containment_boost c2 c1 v := by
  unfold containment_boost
  rcases lt_or_gt_of_ne h with hlt | hlt
  · rw [if_neg (not_lt_of_gt hlt), if_pos hlt, if_pos hlt]
  · rw [if_pos hlt, if_neg (not_lt_of_gt hlt), if_pos hlt]

set_option maxRecDepth 10000 in
/-- **C10 counterexample**: two cleaned texts of equal length `11` for
which the partial-substring scan (which never starts at index
`len(shorter) - 5`) finds a match in one orientation only:
`similarity("000000vwxyz", "vwxyz111111") = 27/77` but
`similarity("vwxyz111111", "000000vwxyz") = 3/14`. -/
theorem C10_symmetry_counterexample :
    calculate_text_similarity (9/10) "000000vwxyz" "vwxyz111111" ≠
      calculate_text_similarity (9/10) "vwxyz111111" "000000vwxyz" := by
  decide

/-- **C10 amended** (the part of the claim the code satisfies): the
composite similarity is symmetric whenever the two cleaned texts have
different lengths (at equal cleaned lengths the partial-substring scan can
break symmetry). -/
theorem C10_symmetric_of_ne_cleanLength (sct : ℚ) (a b : String)
    (h : (cleanText a).length ≠ (cleanText b).length) :
    calculate_text_similarity sct a b = calculate_text_similarity sct b a := by
  unfold calculate_text_similarity
  by_cases h1 : a = "" ∨ b = ""
  · rw [if_pos h1, if_pos (Or.symm h1)]
  · rw [if_neg h1, if_neg (fun hc => h1 (Or.symm hc))]
    by_cases h2 : (wordsOf (cleanText a)).toFinset = ∅ ∨ (wordsOf (cleanText b)).toFinset = ∅
    · rw [if_pos h2, if_pos (Or.symm h2)]
    · rw [if_neg h2, if_neg (fun hc => h2 (Or.symm hc))]
      dsimp only
      rw [jaccard_similarity_comm (cleanText a), char_similarity_comm (cleanText a),
        substring_similarity_comm_of_ne h, containment_boost_comm_of_ne _ h,
        semantic_boost_comm]

/-- Witness for the amended C10 at concrete inputs of different cleaned
lengths. -/
theorem C10_symmetric_witness :
    (cleanText "猫").length ≠ (cleanText "猫和狗").length ∧
      calculate_text_similarity (9/10) "猫" "猫和狗" =
        calculate_text_similarity (9/10) "猫和狗" "猫" :=
  ⟨by decide, C10_symmetric_of_ne_cleanLength (9/10) "猫" "猫和狗" (by decide)⟩

/-! ## Helper lemmas: the per-sample evaluator (claims C1 and C4) -/

lemma foldl_max_le_iff {l : List ℚ} {a t : ℚ} :
    l.foldl max a ≤ t ↔ a ≤ t ∧ ∀ v ∈ l, v ≤ t := by
  induction l generalizing a with
  | nil => simp
  | cons x xs ih =>
    simp only [List.foldl_cons, ih, max_le_iff, List.mem_cons]
    constructor
    · rintro ⟨⟨ha, hx⟩, hall⟩
      exact ⟨ha, fun v hv => hv.elim (fun he => he ▸ hx) (hall v)⟩
    · rintro ⟨ha, hall⟩
      exact ⟨⟨ha, hall x (Or.inl rfl)⟩, fun v hv => hall v (Or.inr hv)⟩

lemma foldl_max_mem (l : List ℚ) (a : ℚ) : l.foldl max a ∈ a :: l := by
  induction l generalizing a with
  | nil => simp
  | cons x xs ih =>
    simp only [List.foldl_cons]
    rcases List.mem_cons.mp (ih (max a x)) with h | h
    · rcases max_choice a x with hm | hm
      · rw [h, hm]; exact List.mem_cons_self _ _
      · rw [h, hm]; exact List.mem_cons_of_mem _ (List.mem_cons_self _ _)
    · exact List.mem_cons_of_mem _ (List.mem_cons_of_mem _ h)

lemma pyMaxOr0_le_iff {l : List ℚ} (h : l ≠ []) {t : ℚ} :
    pyMaxOr0 l ≤ t ↔ ∀ v ∈ l, v ≤ t := by
  cases l with
  | nil => exact absurd rfl h
  | cons x xs =>
    simp only [pyMaxOr0, foldl_max_le_iff, List.mem_cons]
    constructor
    · rintro ⟨hx, hall⟩
      exact fun v hv => hv.elim (fun he => he ▸ hx) (hall v)
    · intro hall
      exact ⟨hall x (Or.inl rfl), fun v hv => hall v (Or.inr hv)⟩

lemma lt_pyMaxOr0_iff {l : List ℚ} (h : l ≠ []) {t : ℚ} :
    t < pyMaxOr0 l ↔ ∃ v ∈ l, t < v := by
  rw [← not_le, pyMaxOr0_le_iff h]
  push_neg
  rfl

lemma pyMaxOr0_mem {l : List ℚ} (h : l ≠ []) : pyMaxOr0 l ∈ l := by
  cases l with
  | nil => exact absurd rfl h
  | cons x xs =>
    simpa only [pyMaxOr0] using foldl_max_mem xs x

lemma similarityMatrix_getD (sct : ℚ) (retrieved reference : List String)
    {i : ℕ} (hi : i < retrieved.length) :
    (similarityMatrix sct retrieved reference).getD i [] =
      reference.map fun fc => calculate_relevance_score sct (retrieved.getD i "") fc := by
  unfold similarityMatrix
  rw [List.getD_eq_getElem _ _ (by simpa using hi), List.getElem_map,
    List.getD_eq_getElem _ _ hi]

lemma similarityMatrix_entry (sct : ℚ) (retrieved reference : List String)
    {i j : ℕ} (hi : i < retrieved.length) (hj : j < reference.length) :
    ((similarityMatrix sct retrieved reference).getD i []).getD j 0 =
      calculate_relevance_score sct (retrieved.getD i "") (reference.getD j "") := by
  rw [similarityMatrix_getD sct retrieved reference hi,
    List.getD_eq_getElem _ _ (by simpa using hj), List.getElem_map,
    List.getD_eq_getElem _ _ hj]

lemma rowMaxSim_lt_iff (t sct : ℚ) (retrieved reference : List String)
    {i : ℕ} (hi : i < retrieved.length) (hf : reference ≠ []) :
    (t < rowMaxSim (similarityMatrix sct retrieved reference) i ↔
      ∃ j < reference.length,
        t < calculate_relevance_score sct (retrieved.getD i "") (reference.getD j "")) := by
  unfold rowMaxSim
  rw [similarityMatrix_getD sct retrieved reference hi]
  rw [lt_pyMaxOr0_iff (by simpa using hf)]
  constructor
  · rintro ⟨v, hv, hlt⟩
    rw [List.mem_map] at hv
    obtain ⟨fc, hfc, rfl⟩ := hv
    obtain ⟨j, hj, rfl⟩ := List.mem_iff_getElem.mp hfc
    exact ⟨j, hj, by rwa [List.getD_eq_getElem _ _ hj]⟩
  · rintro ⟨j, hj, hlt⟩
    refine ⟨calculate_relevance_score sct (retrieved.getD i "") (reference.getD j ""),
      List.mem_map.mpr ⟨reference.getD j "", ?_, rfl⟩, hlt⟩
    rw [List.getD_eq_getElem _ _ hj]
    exact List.getElem_mem hj

lemma rowMaxSim_bounds (sct : ℚ) (retrieved reference : List String)
    {i : ℕ} (hi : i < retrieved.length) (hf : reference ≠ []) :
    0 ≤ rowMaxSim (similarityMatrix sct retrieved reference) i ∧
      rowMaxSim (similarityMatrix sct retrieved reference) i ≤ 1 := by
  unfold rowMaxSim
  rw [similarityMatrix_getD sct retrieved reference hi]
  have hne : reference.map (fun fc =>
      calculate_relevance_score sct (retrieved.getD i "") fc) ≠ [] := by
    simpa using hf
  constructor
  · obtain ⟨fc, _, he⟩ := List.mem_map.mp (pyMaxOr0_mem hne)
    rw [← he]
    exact calculate_relevance_score_nonneg sct _ _
  · rw [pyMaxOr0_le_iff hne]
    rintro v hv
    obtain ⟨fc, _, rfl⟩ := List.mem_map.mp hv
    exact calculate_relevance_score_le_one sct _ _

lemma refBest_fst_eq (matrix : List (List ℚ)) (r j : ℕ) :
    (refBest matrix r j).1 =
      (List.range r).foldl (fun m i => max m ((matrix.getD i []).getD j 0)) 0 := by
  unfold refBest
  generalize List.range r = l
  have key : ∀ (l : List ℕ) (acc : ℚ × ℤ),
      (l.foldl (fun acc i =>
        if acc.1 < (matrix.getD i []).getD j 0 then ((matrix.getD i []).getD j 0, (i : ℤ))
        else acc) acc).1 =
      l.foldl (fun m i => max m ((matrix.getD i []).getD j 0)) acc.1 := by
    intro l
    induction l with
    | nil => intro acc; rfl
    | cons x xs ih =>
      intro acc
      simp only [List.foldl_cons]
      rw [ih]
      congr 1
      split_ifs with h
      · exact (max_eq_right h.le).symm
      · exact (max_eq_left (not_lt.mp h)).symm
  exact key l (0, -1)

lemma refBest_fst_le_iff (t sct : ℚ) (retrieved reference : List String)
    {j : ℕ} (hj : j < reference.length) (hr : retrieved ≠ []) :
    ((refBest (similarityMatrix sct retrieved reference) retrieved.length j).1 ≤ t ↔
      ∀ i < retrieved.length,
        calculate_relevance_score sct (retrieved.getD i "") (reference.getD j "") ≤ t) := by
  rw [refBest_fst_eq]
  rw [show (List.range retrieved.length).foldl
      (fun m i => max m (((similarityMatrix sct retrieved reference).getD i []).getD j 0)) 0 =
      ((List.range retrieved.length).map fun i =>
        ((similarityMatrix sct retrieved reference).getD i []).getD j 0).foldl max 0 from
    (List.foldl_map _ _ _ _).symm]
  rw [foldl_max_le_iff]
  constructor
  · rintro ⟨-, hall⟩ i hi
    have hv := hall _ (List.mem_map.mpr ⟨i, List.mem_range.mpr hi, rfl⟩)
    rwa [similarityMatrix_entry sct retrieved reference hi hj] at hv
  · intro hall
    have hR : 0 < retrieved.length := List.length_pos.mpr hr
    refine ⟨le_trans (calculate_relevance_score_nonneg sct (retrieved.getD 0 "")
      (reference.getD j "")) ?_, ?_⟩
    · have h0 := hall 0 hR
      exact h0
    · rintro v hv
      obtain ⟨i, hi, rfl⟩ := List.mem_map.mp hv
      rw [List.mem_range] at hi
      rw [similarityMatrix_entry sct retrieved reference hi hj]
      exact hall i hi

/-- Projection equations for `evaluateSample` (all definitional). -/
lemma evaluateSample_matrix (t sct : ℚ) (retrieved reference : List String) :
    (evaluateSample t sct retrieved reference).matrix =
      similarityMatrix sct retrieved reference := rfl

lemma evaluateSample_relevant (t sct : ℚ) (retrieved reference : List String) :
    (evaluateSample t sct retrieved reference).relevant =
      ((List.range retrieved.length).filter fun i =>
        t < rowMaxSim (similarityMatrix sct retrieved reference) i).map fun i =>
          (i, rowBestRef (similarityMatrix sct retrieved reference) i,
            rowMaxSim (similarityMatrix sct retrieved reference) i) := rfl

lemma evaluateSample_irrelevant (t sct : ℚ) (retrieved reference : List String) :
    (evaluateSample t sct retrieved reference).irrelevant =
      ((List.range retrieved.length).filter fun i =>
        ¬ t < rowMaxSim (similarityMatrix sct retrieved reference) i).map fun i =>
          (i, rowMaxSim (similarityMatrix sct retrieved reference) i) := rfl

lemma evaluateSample_missed (t sct : ℚ) (retrieved reference : List String) :
    (evaluateSample t sct retrieved reference).missed =
      ((List.range reference.length).filter fun j =>
        (refBest (similarityMatrix sct retrieved reference) retrieved.length j).1 ≤ t).map
          fun j => (j, refBest (similarityMatrix sct retrieved reference)
            retrieved.length j) := rfl

lemma evaluateSample_total (t sct : ℚ) (retrieved reference : List String) :
    (evaluateSample t sct retrieved reference).total_relevance_score =
      (((List.range retrieved.length).filter fun i =>
        t < rowMaxSim (similarityMatrix sct retrieved reference) i).map fun i =>
          rowMaxSim (similarityMatrix sct retrieved reference) i).sum := rfl

lemma evaluateSample_precision (t sct : ℚ) (retrieved reference : List String) :
    (evaluateSample t sct retrieved reference).precision =
      if retrieved ≠ [] then
        (evaluateSample t sct retrieved reference).total_relevance_score /
          (retrieved.length : ℚ)
      else 0 := rfl

lemma evaluateSample_recall (t sct : ℚ) (retrieved reference : List String) :
    (evaluateSample t sct retrieved reference).recall' =
      if reference ≠ [] then
        (evaluateSample t sct retrieved reference).total_relevance_score /
          (reference.length : ℚ)
      else 0 := rfl

/-- The per-sample `total_relevance_score` lies in `[0, R]`. -/
lemma total_relevance_score_bounds (t sct : ℚ) (retrieved reference : List String)
    (hf : reference ≠ []) :
    0 ≤ (evaluateSample t sct retrieved reference).total_relevance_score ∧
      (evaluateSample t sct retrieved reference).total_relevance_score ≤
        (retrieved.length : ℚ) := by
  rw [evaluateSample_total]
  set matrix := similarityMatrix sct retrieved reference with hmx
  set relevantIdx := (List.range retrieved.length).filter
    (fun i => t < rowMaxSim matrix i) with hri
  have hmem : ∀ i ∈ relevantIdx, i < retrieved.length := by
    intro i hi
    rw [hri, List.mem_filter, List.mem_range] at hi
    exact hi.1
  constructor
  · apply List.sum_nonneg
    intro v hv
    obtain ⟨i, hi, rfl⟩ := List.mem_map.mp hv
    exact (rowMaxSim_bounds sct retrieved reference (hmem i hi) hf).1
  · calc (relevantIdx.map fun i => rowMaxSim matrix i).sum
        ≤ (relevantIdx.map fun i => rowMaxSim matrix i).length • (1 : ℚ) := by
          apply List.sum_le_card_nsmul
          intro v hv
          obtain ⟨i, hi, rfl⟩ := List.mem_map.mp hv
          exact (rowMaxSim_bounds sct retrieved reference (hmem i hi) hf).2
      _ = (relevantIdx.length : ℚ) := by
          rw [List.length_map, nsmul_eq_mul, mul_one]
      _ ≤ (retrieved.length : ℚ) := by
          have hfl := List.length_filter_le
            (fun i => decide (t < rowMaxSim matrix i)) (List.range retrieved.length)
          rw [List.length_range] at hfl
          rw [hri]
          exact_mod_cast hfl

/-- **C1 counterexample**: with two identical retrieved chunks against one
reference chunk (threshold `0.5`), `total_relevance_score = 1.9` and the
per-sample recall is `1.9/1 = 1.9 > 1` — refuting `recall ∈ [0,1]`. -/
theorem C1_recall_counterexample :
    (["猫", "猫"] : List String) ≠ [] ∧ (["猫"] : List String) ≠ [] ∧
      1 < (evaluateSample (1/2) (9/10) ["猫", "猫"] ["猫"]).recall' :=
  ⟨by decide, by decide, by decide⟩

/-- **C1 amended**: for every sample with non-empty retrieved (`R` chunks)
and reference (`F` chunks) lists, the per-sample precision lies in `[0,1]`
and the per-sample recall lies in `[0, R/F]` (the numerator sums at most
one similarity term per relevant *retrieved* chunk, so recall can exceed
`1` when `R > F`). -/
theorem C1_precision_recall_bounds (t sct : ℚ) (retrieved reference : List String)
    (hr : retrieved ≠ []) (hf : reference ≠ []) :
    (0 ≤ (evaluateSample t sct retrieved reference).precision ∧
      (evaluateSample t sct retrieved reference).precision ≤ 1) ∧
    (0 ≤ (evaluateSample t sct retrieved reference).recall' ∧
      (evaluateSample t sct retrieved reference).recall' ≤
        (retrieved.length : ℚ) / (reference.length : ℚ)) := by
  have hRq : (0 : ℚ) < (retrieved.length : ℚ) := by
    exact_mod_cast List.length_pos.mpr hr
  have hFq : (0 : ℚ) < (reference.length : ℚ) := by
    exact_mod_cast List.length_pos.mpr hf
  obtain ⟨h0, hR⟩ := total_relevance_score_bounds t sct retrieved reference hf
  rw [evaluateSample_precision, evaluateSample_recall, if_pos hr, if_pos hf]
  refine ⟨⟨by positivity, ?_⟩, by positivity, ?_⟩
  · rw [div_le_one hRq]
    exact hR
  · exact (div_le_div_iff_of_pos_right hFq).mpr hR

/-- Witness for the amended C1 at a concrete one-chunk sample. -/
theorem C1_precision_recall_bounds_witness :
    (0 ≤ (evaluateSample (1/2) (9/10) ["猫"] ["猫"]).precision ∧
      (evaluateSample (1/2) (9/10) ["猫"] ["猫"]).precision ≤ 1) ∧
    (0 ≤ (evaluateSample (1/2) (9/10) ["猫"] ["猫"]).recall' ∧
      (evaluateSample (1/2) (9/10) ["猫"] ["猫"]).recall' ≤
        (((["猫"] : List String).length : ℚ)) / (((["猫"] : List String).length : ℚ))) :=
  C1_precision_recall_bounds (1/2) (9/10) ["猫"] ["猫"] (by decide) (by decide)

/-- **C4** (confirmed): a retrieved chunk is classified relevant iff its
maximum similarity over the reference chunks strictly exceeds the
threshold (equivalently, some reference chunk exceeds it), otherwise it is
recorded in the irrelevant list; a reference chunk is recorded as missed
iff its maximum similarity over the retrieved chunks is `≤` the threshold
(equivalently, every retrieved chunk is `≤` it); in particular a lone
retrieved/reference pair whose similarity is exactly the threshold lands
in both the irrelevant and the missed lists. -/
theorem C4_threshold_classification (t sct : ℚ) (retrieved reference : List String)
    (hr : retrieved ≠ []) (hf : reference ≠ []) :
    (∀ i < retrieved.length,
      ((∃ br sc, (i, br, sc) ∈ (evaluateSample t sct retrieved reference).relevant) ↔
        ∃ j < reference.length,
          t < calculate_relevance_score sct (retrieved.getD i "") (reference.getD j "")) ∧
      ((∃ sc, (i, sc) ∈ (evaluateSample t sct retrieved reference).irrelevant) ↔
        ¬ ∃ j < reference.length,
          t < calculate_relevance_score sct (retrieved.getD i "") (reference.getD j ""))) ∧
    (∀ j < reference.length,
      ((∃ pr, (j, pr) ∈ (evaluateSample t sct retrieved reference).missed) ↔
        ∀ i < retrieved.length,
          calculate_relevance_score sct (retrieved.getD i "") (reference.getD j "") ≤ t)) ∧
    (∀ a b : String, calculate_relevance_score sct a b = t →
      (∃ sc, (0, sc) ∈ (evaluateSample t sct [a] [b]).irrelevant) ∧
      (∃ pr, (0, pr) ∈ (evaluateSample t sct [a] [b]).missed)) := by
  refine ⟨?_, ?_, ?_⟩
  · intro i hi
    constructor
    · rw [evaluateSample_relevant]
      constructor
      · rintro ⟨br, sc, hmem⟩
        rw [List.mem_map] at hmem
        obtain ⟨i', hi', heq⟩ := hmem
        have hii : i' = i := congrArg Prod.fst heq
        subst hii
        rw [List.mem_filter, List.mem_range] at hi'
        have hlt := of_decide_eq_true hi'.2
        exact (rowMaxSim_lt_iff t sct retrieved reference hi hf).mp hlt
      · intro hex
        have hlt := (rowMaxSim_lt_iff t sct retrieved reference hi hf).mpr hex
        refine ⟨_, _, List.mem_map.mpr ⟨i, ?_, rfl⟩⟩
        rw [List.mem_filter, List.mem_range]
        exact ⟨hi, decide_eq_true hlt⟩
    · rw [evaluateSample_irrelevant,
        ← rowMaxSim_lt_iff t sct retrieved reference hi hf, not_lt]
      constructor
      · rintro ⟨sc, hmem⟩
        rw [List.mem_map] at hmem
        obtain ⟨i', hi', heq⟩ := hmem
        have hii : i' = i := congrArg Prod.fst heq
        subst hii
        rw [List.mem_filter] at hi'
        have := of_decide_eq_true hi'.2
        exact not_lt.mp this
      · intro hle
        refine ⟨_, List.mem_map.mpr ⟨i, ?_, rfl⟩⟩
        rw [List.mem_filter, List.mem_range]
        exact ⟨hi, decide_eq_true (not_lt.mpr hle)⟩
  · intro j hj
    rw [evaluateSample_missed,
      ← refBest_fst_le_iff t sct retrieved reference hj hr]
    constructor
    · rintro ⟨pr, hmem⟩
      rw [List.mem_map] at hmem
      obtain ⟨j', hj', heq⟩ := hmem
      have hjj : j' = j := congrArg Prod.fst heq
      subst hjj
      rw [List.mem_filter] at hj'
      exact of_decide_eq_true hj'.2
    · intro hle
      refine ⟨_, List.mem_map.mpr ⟨j, ?_, rfl⟩⟩
      rw [List.mem_filter, List.mem_range]
      exact ⟨hj, decide_eq_true hle⟩
  · intro a b hab
    have h0 : 0 ≤ t := hab ▸ calculate_relevance_score_nonneg sct a b
    constructor
    · refine ⟨rowMaxSim (similarityMatrix sct [a] [b]) 0, ?_⟩
      rw [evaluateSample_irrelevant]
      refine List.mem_map.mpr ⟨0, ?_, rfl⟩
      rw [List.mem_filter, List.mem_range]
      refine ⟨by norm_num, decide_eq_true (not_lt.mpr ?_)⟩
      unfold rowMaxSim
      rw [similarityMatrix_getD sct [a] [b] (by norm_num)]
      rw [pyMaxOr0_le_iff (by simp)]
      intro v hv
      simp only [List.map_cons, List.map_nil, List.mem_singleton] at hv
      subst hv
      simpa using le_of_eq hab
    · refine ⟨refBest (similarityMatrix sct [a] [b]) 1 0, ?_⟩
      rw [evaluateSample_missed]
      refine List.mem_map.mpr ⟨0, ?_, rfl⟩
      rw [List.mem_filter, List.mem_range]
      refine ⟨by norm_num, decide_eq_true ?_⟩
      rw [refBest_fst_le_iff t sct [a] [b] (by norm_num) (by simp)]
      intro i hi
      have hi0 : i = 0 := by simpa [Nat.lt_one_iff] using hi
      subst hi0
      simpa using le_of_eq hab

/-- Witness for C4 at a concrete tie: `相似度("猫和狗","猫和狗") = 0.95`,
taken as the threshold, so the lone chunk is simultaneously irrelevant and
missed. -/
theorem C4_threshold_classification_witness :
    calculate_relevance_score (9/10) "猫和狗" "猫和狗" = 95/100 ∧
    (∃ sc, (0, sc) ∈ (evaluateSample (95/100) (9/10) ["猫和狗"] ["猫和狗"]).irrelevant) ∧
    (∃ pr, (0, pr) ∈ (evaluateSample (95/100) (9/10) ["猫和狗"] ["猫和狗"]).missed) :=
  ⟨by decide,
   (C4_threshold_classification (95/100) (9/10) ["猫和狗"] ["猫和狗"]
      (by decide) (by decide)).2.2 "猫和狗" "猫和狗" (by decide)⟩

/-! ## Helper lemmas: dataset aggregation (claim C5) -/

lemma precision_scores_nonneg (t sct : ℚ) (samples : List Sample) :
    ∀ v ∈ precision_scores t sct samples, 0 ≤ v := by
  intro v hv
  unfold precision_scores at hv
  obtain ⟨smp, hs, rfl⟩ := List.mem_map.mp hv
  rw [List.mem_filter] at hs
  have hk : sampleKept smp := of_decide_eq_true hs.2
  rw [evaluateSample_precision, if_pos hk.1]
  have h0 := (total_relevance_score_bounds t sct smp.retrieved_contexts
    smp.reference_contexts hk.2).1
  positivity

lemma recall_scores_nonneg (t sct : ℚ) (samples : List Sample) :
    ∀ v ∈ recall_scores t sct samples, 0 ≤ v := by
  intro v hv
  unfold recall_scores at hv
  obtain ⟨smp, hs, rfl⟩ := List.mem_map.mp hv
  rw [List.mem_filter] at hs
  have hk : sampleKept smp := of_decide_eq_true hs.2
  rw [evaluateSample_recall, if_pos hk.2]
  have h0 := (total_relevance_score_bounds t sct smp.retrieved_contexts
    smp.reference_contexts hk.2).1
  positivity

lemma pyMeanOr0_nonneg {l : List ℚ} (h : ∀ v ∈ l, 0 ≤ v) : 0 ≤ pyMeanOr0 l := by
  unfold pyMeanOr0
  split_ifs with hne
  · have hs := List.sum_nonneg h
    positivity
  · exact le_refl 0

lemma scores_length_eq (t sct : ℚ) (samples : List Sample) :
    (precision_scores t sct samples).length = (recall_scores t sct samples).length := by
  unfold precision_scores recall_scores
  rw [List.length_map, List.length_map]

/-- **C5 counterexample**: on the two-sample dataset
`[({q}, [猫], [猫,狗]), ({q}, [猫,狗], [猫])]` with thresholds `0.5`/`0.9`,
the per-sample f1 values are both `19/30` (mean `19/30 ≈ 0.633`), but the
dataset-level `avg_f1` — the harmonic formula applied to the *average*
precision `0.7125` and recall `0.7125` — is `57/80 = 0.7125`. -/
theorem C5_dataset_f1_counterexample :
    f1_avg_f1 (1/2) (9/10)
        [⟨"q", ["猫"], ["猫", "狗"]⟩, ⟨"q", ["猫", "狗"], ["猫"]⟩] ≠
      pyMeanOr0 (f1_scores (1/2) (9/10)
        [⟨"q", ["猫"], ["猫", "狗"]⟩, ⟨"q", ["猫", "狗"], ["猫"]⟩]) ∧
    avg_f1 (1/2) (9/10)
        [⟨"q", ["猫"], ["猫", "狗"]⟩, ⟨"q", ["猫", "狗"], ["猫"]⟩] ≠
      pyMeanOr0 (f1_scores (1/2) (9/10)
        [⟨"q", ["猫"], ["猫", "狗"]⟩, ⟨"q", ["猫", "狗"], ["猫"]⟩]) :=
  ⟨by decide, by decide⟩

/-- **C5 amended**: the dataset-level f1 is the harmonic-mean formula
`2·P·R/(P+R)` applied to the dataset-level average precision `P` and
average recall `R` (identically in `BM25_evaluate.py`'s `avg_f1` and in
`F1_Metrics.py`, whose zero guards agree because the averages are
nonnegative); the per-sample f1 values are computed as
`2·p·r/(p+r)` (else `0`) per sample, but they are reported as a list and
are *not* averaged into the dataset-level f1. -/
theorem C5_dataset_f1_shape (t sct : ℚ) (samples : List Sample) :
    avg_f1 t sct samples =
      calculate_f1_score (avg_precision t sct samples) (avg_recall t sct samples) ∧
    f1_avg_f1 t sct samples =
      calculate_f1_score (avg_precision t sct samples) (avg_recall t sct samples) ∧
    ∀ k < (precision_scores t sct samples).length,
      (f1_scores t sct samples).getD k 0 =
        calculate_f1_score ((precision_scores t sct samples).getD k 0)
          ((recall_scores t sct samples).getD k 0) := by
  have hp : 0 ≤ avg_precision t sct samples :=
    pyMeanOr0_nonneg (precision_scores_nonneg t sct samples)
  have hrr : 0 ≤ avg_recall t sct samples :=
    pyMeanOr0_nonneg (recall_scores_nonneg t sct samples)
  refine ⟨?_, rfl, ?_⟩
  · unfold avg_f1 calculate_f1_score
    rcases eq_or_lt_of_le (add_nonneg hp hrr) with he | hlt
    · rw [if_neg (by rw [← he]; exact lt_irrefl 0), if_pos he.symm]
    · rw [if_pos hlt, if_neg (by exact ne_of_gt hlt)]
  · intro k hk
    have hlen := scores_length_eq t sct samples
    have hkr : k < (recall_scores t sct samples).length := hlen ▸ hk
    have hkz : k < (f1_scores t sct samples).length := by
      unfold f1_scores
      rw [List.length_zipWith]
      omega
    rw [List.getD_eq_getElem _ _ hkz, List.getD_eq_getElem _ _ hk,
      List.getD_eq_getElem _ _ hkr]
    unfold f1_scores
    simp only [List.getElem_zipWith]

/-- Witness for the amended C5 on the two-sample dataset, with the
index hypothesis discharged concretely. -/
theorem C5_dataset_f1_shape_witness :
    avg_f1 (1/2) (9/10)
        [⟨"q", ["猫"], ["猫", "狗"]⟩, ⟨"q", ["猫", "狗"], ["猫"]⟩] =
      calculate_f1_score
        (avg_precision (1/2) (9/10)
          [⟨"q", ["猫"], ["猫", "狗"]⟩, ⟨"q", ["猫", "狗"], ["猫"]⟩])
        (avg_recall (1/2) (9/10)
          [⟨"q", ["猫"], ["猫", "狗"]⟩, ⟨"q", ["猫", "狗"], ["猫"]⟩]) ∧
    (f1_scores (1/2) (9/10)
        [⟨"q", ["猫"], ["猫", "狗"]⟩, ⟨"q", ["猫", "狗"], ["猫"]⟩]).getD 0 0 =
      calculate_f1_score
        ((precision_scores (1/2) (9/10)
          [⟨"q", ["猫"], ["猫", "狗"]⟩, ⟨"q", ["猫", "狗"], ["猫"]⟩]).getD 0 0)
        ((recall_scores (1/2) (9/10)
          [⟨"q", ["猫"], ["猫", "狗"]⟩, ⟨"q", ["猫", "狗"], ["猫"]⟩]).getD 0 0) := by
  have h := C5_dataset_f1_shape (1/2) (9/10)
    [⟨"q", ["猫"], ["猫", "狗"]⟩, ⟨"q", ["猫", "狗"], ["猫"]⟩]
  exact ⟨h.1, h.2.2 0 (by decide)⟩

/-! ## Helper lemmas: DCG/IDCG/NDCG (claims C2 and C9) -/

lemma one_le_logb_two (i : ℕ) : 1 ≤ Real.logb 2 ((i + 2 : ℕ) : ℝ) := by
  have h2 : (2 : ℝ) ≤ ((i + 2 : ℕ) : ℝ) := by push_cast; linarith
  calc (1 : ℝ) = Real.logb 2 2 := (Real.logb_self_eq_one one_lt_two).symm
    _ ≤ Real.logb 2 ((i + 2 : ℕ) : ℝ) := Real.logb_le_logb_of_le one_lt_two two_pos h2

lemma logb_two_pos (i : ℕ) : 0 < Real.logb 2 ((i + 2 : ℕ) : ℝ) :=
  lt_of_lt_of_le one_pos (one_le_logb_two i)

lemma logb_two_anti {i j : ℕ} (h : i ≤ j) :
    (Real.logb 2 ((j + 2 : ℕ) : ℝ))⁻¹ ≤ (Real.logb 2 ((i + 2 : ℕ) : ℝ))⁻¹ := by
  have hcast : ((i : ℕ) : ℝ) ≤ ((j : ℕ) : ℝ) := by exact_mod_cast h
  apply inv_le_inv_of_le (logb_two_pos i)
  apply Real.logb_le_logb_of_le one_lt_two
  · have : (0 : ℝ) < ((i + 2 : ℕ) : ℝ) := by push_cast; linarith
    exact this
  · push_cast; linarith

lemma gain_binary {x : ℚ} (h : x = 0 ∨ x = 1) :
    (2 : ℝ) ^ ((x : ℚ) : ℝ) - 1 = ((x : ℚ) : ℝ) := by
  rcases h with rfl | rfl
  · simp [Real.rpow_zero]
  · simp [Real.rpow_one]
    norm_num

/-- Binary values weighted by an antitone nonnegative weight sum to at
most the sum of the first `count 1` weights. -/
lemma binary_weighted_sum_le :
    ∀ (a : List ℚ) (w : ℕ → ℝ), (∀ i, 0 ≤ w i) → (∀ i j, i ≤ j → w j ≤ w i) →
      (∀ x ∈ a, x = 0 ∨ x = 1) →
      (∑ i ∈ Finset.range a.length, ((a.getD i 0 : ℚ) : ℝ) * w i) ≤
        ∑ i ∈ Finset.range (a.count 1), w i := by
  intro a
  induction a with
  | nil => intro w _ _ _; simp
  | cons x t ih =>
    intro w hw0 hwa hbin
    have hx : x = 0 ∨ x = 1 := hbin x (List.mem_cons_self x t)
    have hbt : ∀ y ∈ t, y = 0 ∨ y = 1 := fun y hy => hbin y (List.mem_cons_of_mem x hy)
    have hih := ih (fun i => w (i + 1)) (fun i => hw0 (i + 1))
      (fun i j hij => hwa (i + 1) (j + 1) (by omega)) hbt
    rw [List.length_cons, Finset.sum_range_succ']
    simp only [List.getD_cons_succ, List.getD_cons_zero]
    rw [List.count_cons]
    rcases hx with rfl | rfl
    · simp only [show ((0 : ℚ) == 1) = false from rfl, if_false, add_zero]
      push_cast
      rw [zero_mul, add_zero]
      calc (∑ i ∈ Finset.range t.length, ((t.getD i 0 : ℚ) : ℝ) * w (i + 1))
          ≤ ∑ i ∈ Finset.range (t.count 1), w (i + 1) := hih
        _ ≤ ∑ i ∈ Finset.range (t.count 1), w i := by
            apply Finset.sum_le_sum
            intro i _
            exact hwa i (i + 1) (by omega)
    · simp only [show ((1 : ℚ) == 1) = true from rfl, if_true]
      rw [Finset.sum_range_succ']
      push_cast
      rw [one_mul]
      exact add_le_add hih (le_refl (w 0))

/-- A descending-sorted binary list is ones followed by zeros. -/
lemma sorted_binary_replicate :
    ∀ (s : List ℚ), (∀ x ∈ s, x = 0 ∨ x = 1) →
      s.Sorted (fun a b => b ≤ a) →
      s = List.replicate (s.count 1) 1 ++ List.replicate (s.length - s.count 1) 0 := by
  intro s
  induction s with
  | nil => intro _ _; simp
  | cons x t ih =>
    intro hbin hsort
    rw [List.sorted_cons] at hsort
    have hx : x = 0 ∨ x = 1 := hbin x (List.mem_cons_self x t)
    have hbt : ∀ y ∈ t, y = 0 ∨ y = 1 := fun y hy => hbin y (List.mem_cons_of_mem x hy)
    rcases hx with rfl | rfl
    · have ht0 : ∀ y ∈ t, y = (0 : ℚ) := by
        intro y hy
        rcases hbt y hy with rfl | rfl
        · rfl
        · exact absurd (hsort.1 1 hy) (by norm_num)
      have htrep : t = List.replicate t.length 0 := List.eq_replicate_of_mem ht0
      have hcount : (0 :: t : List ℚ).count 1 = 0 := by
        rw [List.count_cons, htrep, List.count_replicate]
        norm_num
      rw [hcount, List.replicate_zero, List.nil_append, List.length_cons,
        Nat.sub_zero, List.replicate_succ]
      rw [htrep]
      congr 1
      rw [List.length_replicate]
    · have hts := ih hbt hsort.2
      have hcount : (1 :: t : List ℚ).count 1 = t.count 1 + 1 := by
        rw [List.count_cons]
        norm_num
      have hcle : t.count 1 ≤ t.length := List.count_le_length 1 t
      rw [hcount, List.replicate_succ, List.length_cons]
      rw [show t.length + 1 - (t.count 1 + 1) = t.length - t.count 1 from by omega]
      rw [List.cons_append]
      congr 1

/-- `calculate_dcg` of a binary vector, reindexed from the end: the entry
at distance `j` from the end is discounted by `log2(j + 2)`. -/
lemma calculate_dcg_binary_eq (rel : List ℚ) (hne : rel ≠ [])
    (hbin : ∀ x ∈ rel, x = 0 ∨ x = 1) :
    calculate_dcg rel = ∑ j ∈ Finset.range rel.length,
      ((rel.reverse.getD j 0 : ℚ) : ℝ) * (Real.logb 2 ((j + 2 : ℕ) : ℝ))⁻¹ := by
  unfold calculate_dcg
  rw [if_neg hne]
  rw [← Finset.sum_range_reflect]
  apply Finset.sum_congr rfl
  intro j hj
  rw [Finset.mem_range] at hj
  have h1 : rel.length - (rel.length - 1 - j) + 1 = j + 2 := by omega
  have h2 : rel.length - 1 - j < rel.length := by omega
  have h3 : j < rel.reverse.length := by rw [List.length_reverse]; exact hj
  rw [h1]
  rw [List.getD_eq_getElem _ _ h2, List.getD_eq_getElem _ _ h3,
    List.getElem_reverse]
  rw [gain_binary (hbin _ (List.getElem_mem h2))]
  rw [div_eq_mul_inv]

/-- `calculate_idcg` of a binary vector: the `k = count 1` ones receive the
first `k` forward discounts. -/
lemma calculate_idcg_binary_eq (rel : List ℚ) (hne : rel ≠ [])
    (hbin : ∀ x ∈ rel, x = 0 ∨ x = 1) :
    calculate_idcg rel = ∑ i ∈ Finset.range (rel.count 1),
      (Real.logb 2 ((i + 2 : ℕ) : ℝ))⁻¹ := by
  unfold calculate_idcg
  rw [if_neg hne]
  letI : IsTotal ℚ (fun a b : ℚ => b ≤ a) := ⟨fun a b => le_total b a⟩
  letI : IsTrans ℚ (fun a b : ℚ => b ≤ a) := ⟨fun a b c hab hbc => le_trans hbc hab⟩
  have hperm := List.perm_insertionSort (fun a b : ℚ => b ≤ a) rel
  have hsorted := List.sorted_insertionSort (fun a b : ℚ => b ≤ a) rel
  have hbins : ∀ x ∈ List.insertionSort (fun a b : ℚ => b ≤ a) rel, x = 0 ∨ x = 1 :=
    fun x hx => hbin x (hperm.mem_iff.mp hx)
  have hrep := sorted_binary_replicate _ hbins hsorted
  have hcnt : (List.insertionSort (fun a b : ℚ => b ≤ a) rel).count 1 = rel.count 1 :=
    hperm.count_eq 1
  have hlen : (List.insertionSort (fun a b : ℚ => b ≤ a) rel).length = rel.length :=
    hperm.length_eq
  set k := rel.count 1 with hk
  have hkle : k ≤ rel.length := hk ▸ List.count_le_length 1 rel
  dsimp only
  rw [hrep, hcnt, hlen]
  have hlen2 : (List.replicate k (1 : ℚ) ++
      List.replicate (rel.length - k) 0).length = rel.length := by
    rw [List.length_append, List.length_replicate, List.length_replicate]
    omega
  rw [hlen2]
  rw [Finset.range_eq_Ico]
  rw [← Finset.sum_Ico_consecutive _ (Nat.zero_le k) hkle]
  have hfirst : ∀ i ∈ Finset.Ico 0 k,
      ((2 : ℝ) ^ (((List.replicate k (1 : ℚ) ++
          List.replicate (rel.length - k) 0).getD i 0 : ℚ) : ℝ) - 1) /
        Real.logb 2 ((i + 2 : ℕ) : ℝ) = (Real.logb 2 ((i + 2 : ℕ) : ℝ))⁻¹ := by
    intro i hi
    rw [Finset.mem_Ico] at hi
    have hilt : i < (List.replicate k (1 : ℚ) ++
        List.replicate (rel.length - k) 0).length := by rw [hlen2]; omega
    have hval : (List.replicate k (1 : ℚ) ++
        List.replicate (rel.length - k) 0).getD i 0 = 1 := by
      rw [List.getD_eq_getElem _ _ hilt]
      rw [List.getElem_append_left (by rw [List.length_replicate]; exact hi.2)]
      exact List.getElem_replicate ..
    rw [hval]
    rw [gain_binary (Or.inr rfl)]
    push_cast
    rw [one_div]
  have hsecond : ∀ i ∈ Finset.Ico k rel.length,
      ((2 : ℝ) ^ (((List.replicate k (1 : ℚ) ++
          List.replicate (rel.length - k) 0).getD i 0 : ℚ) : ℝ) - 1) /
        Real.logb 2 ((i + 2 : ℕ) : ℝ) = 0 := by
    intro i hi
    rw [Finset.mem_Ico] at hi
    have hilt : i < (List.replicate k (1 : ℚ) ++
        List.replicate (rel.length - k) 0).length := by rw [hlen2]; omega
    have hval : (List.replicate k (1 : ℚ) ++
        List.replicate (rel.length - k) 0).getD i 0 = 0 := by
      rw [List.getD_eq_getElem _ _ hilt]
      rw [List.getElem_append_right (by rw [List.length_replicate]; exact hi.1)]
      exact List.getElem_replicate ..
    rw [hval]
    rw [gain_binary (Or.inl rfl)]
    push_cast
    rw [zero_div]
  rw [Finset.sum_congr rfl hfirst, Finset.sum_congr rfl hsecond]
  rw [Finset.sum_const_zero, add_zero]

lemma calculate_dcg_nonneg (rel : List ℚ) (hbin : ∀ x ∈ rel, x = 0 ∨ x = 1) :
    0 ≤ calculate_dcg rel := by
  unfold calculate_dcg
  split_ifs with h
  · exact le_refl 0
  · apply Finset.sum_nonneg
    intro i hi
    rw [Finset.mem_range] at hi
    apply div_nonneg
    · rw [gain_binary (hbin _ (by
        rw [List.getD_eq_getElem _ _ hi]
        exact List.getElem_mem hi))]
      rcases hbin (rel.getD i 0) (by
        rw [List.getD_eq_getElem _ _ hi]
        exact List.getElem_mem hi) with he | he <;> rw [he] <;> norm_num
    · have : rel.length - i + 1 = (rel.length - i - 1) + 2 := by omega
      rw [this]
      exact (logb_two_pos _).le

/-- **C9** (confirmed): for every binary relevance vector,
`calculate_dcg ≤ calculate_idcg` (the reversed DCG positions are distinct
values in `1..N` while IDCG gives the ones the smallest positions), hence
`calculate_ndcg` always lies in `[0, 1]` despite the asymmetric position
conventions. -/
theorem C9_ndcg_bounded (rel : List ℚ) (hbin : ∀ x ∈ rel, x = 0 ∨ x = 1) :
    calculate_dcg rel ≤ calculate_idcg rel ∧
      0 ≤ calculate_ndcg_core rel ∧ calculate_ndcg_core rel ≤ 1 := by
  have hmain : calculate_dcg rel ≤ calculate_idcg rel := by
    rcases eq_or_ne rel [] with rfl | hne
    · unfold calculate_dcg calculate_idcg
      norm_num
    · rw [calculate_dcg_binary_eq rel hne hbin, calculate_idcg_binary_eq rel hne hbin]
      have hrevbin : ∀ x ∈ rel.reverse, x = 0 ∨ x = 1 := by
        intro x hx
        exact hbin x (List.mem_reverse.mp hx)
      have h := binary_weighted_sum_le rel.reverse
        (fun i => (Real.logb 2 ((i + 2 : ℕ) : ℝ))⁻¹)
        (fun i => inv_nonneg.mpr (logb_two_pos i).le)
        (fun i j hij => logb_two_anti hij) hrevbin
      rw [List.length_reverse, List.count_reverse] at h
      exact h
  refine ⟨hmain, ?_, ?_⟩
  · unfold calculate_ndcg_core
    split_ifs with h
    · exact div_nonneg (calculate_dcg_nonneg rel hbin) h.le
    · exact le_refl 0
  · unfold calculate_ndcg_core
    split_ifs with h
    · rw [div_le_one h]
      exact hmain
    · norm_num

/-- Witness for C9 at the binary vector `[1, 0, 1]`. -/
theorem C9_ndcg_bounded_witness :
    calculate_dcg [1, 0, 1] ≤ calculate_idcg [1, 0, 1] ∧
      0 ≤ calculate_ndcg_core [1, 0, 1] ∧ calculate_ndcg_core [1, 0, 1] ≤ 1 :=
  C9_ndcg_bounded [1, 0, 1] (by decide)

/-! ## Helper lemmas: concrete logarithm values (claim C2) -/

lemma logb_two_two : Real.logb 2 2 = 1 := Real.logb_self_eq_one one_lt_two

lemma logb_two_four : Real.logb 2 4 = 2 := by
  rw [show (4 : ℝ) = 2 ^ (2 : ℕ) by norm_num, Real.logb_pow, logb_two_two]
  norm_num

lemma logb_two_three_gt : (84 / 53 : ℝ) < Real.logb 2 3 := by
  have h1 : ((2 : ℝ) ^ (84 : ℕ)) < 3 ^ (53 : ℕ) := by norm_num
  have h2 : Real.logb 2 ((2 : ℝ) ^ (84 : ℕ)) < Real.logb 2 ((3 : ℝ) ^ (53 : ℕ)) :=
    Real.logb_lt_logb one_lt_two (by positivity) h1
  rw [Real.logb_pow, Real.logb_pow, logb_two_two] at h2
  rw [div_lt_iff (by norm_num : (0 : ℝ) < 53)]
  push_cast at h2
  linarith

lemma logb_two_three_lt : Real.logb 2 3 < 65 / 41 := by
  have h1 : ((3 : ℝ) ^ (41 : ℕ)) < 2 ^ (65 : ℕ) := by norm_num
  have h2 : Real.logb 2 ((3 : ℝ) ^ (41 : ℕ)) < Real.logb 2 ((2 : ℝ) ^ (65 : ℕ)) :=
    Real.logb_lt_logb one_lt_two (by positivity) h1
  rw [Real.logb_pow, Real.logb_pow, logb_two_two] at h2
  rw [lt_div_iff (by norm_num : (0 : ℝ) < 41)]
  push_cast at h2
  linarith

lemma logb_two_three_pos : 0 < Real.logb 2 3 :=
  lt_trans (by norm_num) logb_two_three_gt

lemma calculate_dcg_101 : calculate_dcg [1, 0, 1] = 3 / 2 := by
  unfold calculate_dcg
  rw [if_neg (by decide)]
  rw [show ([1, 0, 1] : List ℚ).length = 3 from rfl]
  rw [Finset.sum_range_succ, Finset.sum_range_succ, Finset.sum_range_succ,
    Finset.sum_range_zero]
  simp only [List.getD_cons_zero, List.getD_cons_succ]
  norm_num
  rw [logb_two_four]
  norm_num

lemma insertionSort_101 :
    List.insertionSort (fun a b : ℚ => b ≤ a) [1, 0, 1] = [1, 1, 0] := by decide

lemma calculate_idcg_101 :
    calculate_idcg [1, 0, 1] = 1 / Real.logb 2 2 + 1 / Real.logb 2 3 := by
  unfold calculate_idcg
  rw [if_neg (by decide)]
  dsimp only
  rw [insertionSort_101]
  rw [show ([1, 1, 0] : List ℚ).length = 3 from rfl]
  rw [Finset.sum_range_succ, Finset.sum_range_succ, Finset.sum_range_succ,
    Finset.sum_range_zero]
  simp only [List.getD_cons_zero, List.getD_cons_succ]
  norm_num

lemma calculate_idcg_101_pos : 0 < calculate_idcg [1, 0, 1] := by
  rw [calculate_idcg_101, logb_two_two]
  have h := logb_two_three_pos
  positivity

/-- **C2** (confirmed): for the binary relevance vector `[1, 0, 1]`
(`N = 3`), `DCG = 1/log2(4) + 0 + 1/log2(2) = 1.5` under the reversed
positions, `IDCG = 1/log2(2) + 1/log2(3) ≈ 1.6309` under the forward
positions on the descending sort, and `NDCG = DCG/IDCG ≈ 0.9197`; in
general `calculate_dcg` discounts entry `i` by `log2((N-i)+1)` and
`calculate_idcg` discounts the `i`-th sorted entry by `log2((i+1)+1)`. -/
theorem C2_ndcg_literal :
    calculate_dcg [1, 0, 1] = 3 / 2 ∧
    calculate_idcg [1, 0, 1] = 1 / Real.logb 2 2 + 1 / Real.logb 2 3 ∧
    |calculate_idcg [1, 0, 1] - 1.6309| < 1 / 1000 ∧
    calculate_ndcg_core [1, 0, 1] =
      calculate_dcg [1, 0, 1] / calculate_idcg [1, 0, 1] ∧
    |calculate_ndcg_core [1, 0, 1] - 0.9197| < 1 / 1000 ∧
    (∀ rel : List ℚ, calculate_dcg rel = ∑ i ∈ Finset.range rel.length,
      ((2 : ℝ) ^ ((rel.getD i 0 : ℚ) : ℝ) - 1) /
        Real.logb 2 ((rel.length - i + 1 : ℕ) : ℝ)) ∧
    (∀ rel : List ℚ, calculate_idcg rel = ∑ i ∈ Finset.range
        (List.insertionSort (fun a b : ℚ => b ≤ a) rel).length,
      ((2 : ℝ) ^ (((List.insertionSort (fun a b : ℚ => b ≤ a) rel).getD i 0 : ℚ) : ℝ) - 1) /
        Real.logb 2 ((i + 1 + 1 : ℕ) : ℝ)) := by
  have hu1 : 1 / Real.logb 2 3 < 53 / 84 := by
    rw [show (53 / 84 : ℝ) = 1 / (84 / 53) by norm_num]
    exact one_div_lt_one_div_of_lt (by norm_num) logb_two_three_gt
  have hu2 : (41 / 65 : ℝ) < 1 / Real.logb 2 3 := by
    rw [show (41 / 65 : ℝ) = 1 / (65 / 41) by norm_num]
    exact one_div_lt_one_div_of_lt logb_two_three_pos logb_two_three_lt
  have hndcg : calculate_ndcg_core [1, 0, 1] =
      calculate_dcg [1, 0, 1] / calculate_idcg [1, 0, 1] := by
    unfold calculate_ndcg_core
    rw [if_pos calculate_idcg_101_pos]
  refine ⟨calculate_dcg_101, calculate_idcg_101, ?_, hndcg, ?_, ?_, ?_⟩
  · rw [calculate_idcg_101, logb_two_two, abs_lt]
    constructor <;> nlinarith [hu1, hu2]
  · rw [hndcg, calculate_dcg_101, calculate_idcg_101, logb_two_two]
    have hdpos : (0 : ℝ) < 1 / 1 + 1 / Real.logb 2 3 := by
      have h := logb_two_three_pos
      positivity
    have hlt : (3 / 2 : ℝ) / (1 / 1 + 1 / Real.logb 2 3) < 0.9207 := by
      rw [div_lt_iff hdpos]
      nlinarith [hu2]
    have hgt : (0.9187 : ℝ) < 3 / 2 / (1 / 1 + 1 / Real.logb 2 3) := by
      rw [lt_div_iff hdpos]
      nlinarith [hu1]
    rw [abs_lt]
    constructor <;> nlinarith [hlt, hgt]
  · intro rel
    unfold calculate_dcg
    split_ifs with h
    · rw [h]
      simp
    · rfl
  · intro rel
    unfold calculate_idcg
    split_ifs with h
    · rw [h]
      simp
    · rfl

/-! ## Helper lemmas: BM25 score on a one-document corpus (claims C8, C3) -/

lemma bm25_tokenize_a : BM25.tokenize "a" = ["a"] := by decide

/-- The BM25 score of query `"a"` against the one-document corpus `["a"]`
is `ln((1 - 1 + 0.5)/(1 + 0.5)) = ln(1/3)`, reached both at index `0` and
at the Python-wrapped index `-1`. -/
lemma bm25_score_single_a (idx : ℤ) (h : idx = 0 ∨ idx = -1) :
    BM25.score ["a"] "a" idx = some (Real.log ((1/3 : ℚ) : ℝ)) := by
  have h0 : BM25.score ["a"] "a" 0 =
      some (Real.log ((1/3 : ℚ) : ℝ) * ((1 : ℚ) : ℝ) + 0) := rfl
  have h1 : BM25.score ["a"] "a" (-1) =
      some (Real.log ((1/3 : ℚ) : ℝ) * ((1 : ℚ) : ℝ) + 0) := rfl
  rcases h with rfl | rfl
  · rw [h0]; norm_num
  · rw [h1]; norm_num

/-- **C8 counterexample**: `score` does *not* return `0` for negative
document indices: on the fitted corpus `["a"]`, `score("a", -1)` wraps
around Python-style to document `0` and returns `ln(1/3) ≠ 0`; and on an
empty corpus a negative index raises `IndexError` instead of returning
`0`. -/
theorem C8_score_negative_index_counterexample :
    BM25.score ["a"] "a" (-1) ≠ some 0 ∧ BM25.score [] "a" (-1) = none := by
  constructor
  · rw [bm25_score_single_a (-1) (Or.inr rfl)]
    intro hsome
    have hz : Real.log ((1/3 : ℚ) : ℝ) = 0 := Option.some.injEq .. ▸ hsome ▸ rfl
    rw [Real.log_eq_zero] at hz
    have : ((1/3 : ℚ) : ℝ) = 1/3 := by push_cast; ring
    rw [this] at hz
    rcases hz with hz | hz | hz <;> norm_num at hz
  · unfold BM25.score
    rw [if_neg (by norm_num), if_pos (by norm_num)]

/-- **C8 amended**: `score` returns `0` exactly for `doc_index ≥ corpus
size`; an in-range negative index (`-N ≤ doc_index < 0`) scores the
document at `N + doc_index` (Python wrap-around), and an index below `-N`
raises `IndexError` (modelled as `none`). -/
theorem C8_score_out_of_range (corpus : List String) (query : String) (idx : ℤ) :
    ((corpus.length : ℤ) ≤ idx → BM25.score corpus query idx = some 0) ∧
    (idx < -(corpus.length : ℤ) → BM25.score corpus query idx = none) ∧
    (-(corpus.length : ℤ) ≤ idx → idx < 0 →
      BM25.score corpus query idx = BM25.score corpus query (idx + corpus.length)) := by
  refine ⟨?_, ?_, ?_⟩
  · intro h
    unfold BM25.score
    rw [if_pos h]
  · intro h
    unfold BM25.score
    rw [if_neg (by omega), if_pos h]
  · intro h1 h2
    unfold BM25.score
    dsimp only
    rw [if_neg (show ¬ ((corpus.length : ℤ) ≤ idx) by omega),
      if_neg (show ¬ (idx < -(corpus.length : ℤ)) by omega),
      if_neg (show ¬ ((corpus.length : ℤ) ≤ idx + corpus.length) by omega),
      if_neg (show ¬ (idx + (corpus.length : ℤ) < -(corpus.length : ℤ)) by omega),
      if_pos h2,
      if_neg (show ¬ (idx + (corpus.length : ℤ) < 0) by omega)]

/-- Witness for the amended C8 at concrete indices on the corpus `["a"]`. -/
theorem C8_score_out_of_range_witness :
    BM25.score ["a"] "a" 5 = some 0 ∧
    BM25.score ["a"] "a" (-3) = none ∧
    BM25.score ["a"] "a" (-1) = BM25.score ["a"] "a" (-1 + (["a"] : List String).length) :=
  ⟨(C8_score_out_of_range ["a"] "a" 5).1 (by norm_num),
   (C8_score_out_of_range ["a"] "a" (-3)).2.1 (by norm_num),
   (C8_score_out_of_range ["a"] "a" (-1)).2.2 (by norm_num) (by norm_num)⟩

/-! ## Helper lemmas: reciprocal rank (claim C3) -/

lemma foldl_min_le_iff {l : List ℕ} {a t : ℕ} :
    t ≤ l.foldl min a ↔ t ≤ a ∧ ∀ v ∈ l, t ≤ v := by
  induction l generalizing a with
  | nil => simp
  | cons x xs ih =>
    simp only [List.foldl_cons, ih, le_min_iff, List.mem_cons]
    constructor
    · rintro ⟨⟨ha, hx⟩, hall⟩
      exact ⟨ha, fun v hv => hv.elim (fun he => he ▸ hx) (hall v)⟩
    · rintro ⟨ha, hall⟩
      exact ⟨⟨ha, hall x (Or.inl rfl)⟩, fun v hv => hall v (Or.inr hv)⟩

lemma foldl_min_mem (l : List ℕ) (a : ℕ) : l.foldl min a ∈ a :: l := by
  induction l generalizing a with
  | nil => simp
  | cons x xs ih =>
    simp only [List.foldl_cons]
    rcases List.mem_cons.mp (ih (min a x)) with h | h
    · rcases min_choice a x with hm | hm
      · rw [h, hm]; exact List.mem_cons_self _ _
      · rw [h, hm]; exact List.mem_cons_of_mem _ (List.mem_cons_self _ _)
    · exact List.mem_cons_of_mem _ (List.mem_cons_of_mem _ h)

lemma min?_spec {l : List ℕ} {m : ℕ} (h : l.min? = some m) :
    m ∈ l ∧ ∀ v ∈ l, m ≤ v := by
  cases l with
  | nil => simp [List.min?] at h
  | cons x xs =>
    simp only [List.min?] at h
    obtain rfl : xs.foldl min x = m := Option.some.injEq .. ▸ h ▸ rfl
    refine ⟨foldl_min_mem xs x, ?_⟩
    have hself := foldl_min_le_iff.mp (le_refl (xs.foldl min x))
    intro v hv
    rcases List.mem_cons.mp hv with rfl | hv'
    · exact hself.1
    · exact hself.2 v hv'

/-- The step function of `calculate_reciprocal_rank`'s search loop
computes the minimum dictionary position over the qualifying chunks. -/
lemma rr_foldl_char (Q : String → Prop) [DecidablePred Q] (pos : String → ℕ) :
    ∀ (l : List String) (acc : Option ℕ),
      (l.foldl (fun acc c =>
        if Q c then
          match acc with
          | none => some (pos c)
          | some bp => if pos c < bp then some (pos c) else acc
        else acc) acc) =
      match acc with
      | none => ((l.filter fun c => decide (Q c)).map pos).min?
      | some b => some (((l.filter fun c => decide (Q c)).map pos).foldl min b) := by
  intro l
  induction l with
  | nil => intro acc; cases acc <;> rfl
  | cons c cs ih =>
    intro acc
    by_cases hQ : Q c
    · have hd : (decide (Q c)) = true := decide_eq_true hQ
      rw [List.foldl_cons, List.filter_cons, if_pos hd, List.map_cons]
      cases acc with
      | none =>
        rw [if_pos hQ]
        dsimp only
        rw [ih (some (pos c))]
        simp only [List.min?]
      | some b =>
        rw [if_pos hQ]
        dsimp only
        have hstep : (if pos c < b then some (pos c) else some b) = some (min b (pos c)) := by
          split_ifs with hlt
          · rw [min_eq_right hlt.le]
          · rw [min_eq_left (not_lt.mp hlt)]
        rw [hstep, ih (some (min b (pos c))), List.foldl_cons]
    · rw [List.foldl_cons]
      rw [if_neg hQ, ih acc]
      have hfil : List.filter (fun c => decide (Q c)) (c :: cs) =
          List.filter (fun c => decide (Q c)) cs := by
        rw [List.filter_cons, if_neg]
        rw [decide_eq_false hQ]
        exact Bool.false_ne_true
      rw [hfil]

lemma lookup_enumFrom_map (f : ℕ → ℕ) :
    ∀ (l : List String) (n : ℕ) (c : String), c ∈ l →
      ((l.enumFrom n).map fun p => (p.2, f p.1)).lookup c = some (f (n + l.indexOf c)) := by
  intro l
  induction l with
  | nil => intro n c hc; simp at hc
  | cons x xs ih =>
    intro n c hc
    rw [List.enumFrom_cons, List.map_cons]
    by_cases hcx : c = x
    · subst hcx
      simp only [List.lookup, BEq.refl]
      rw [List.indexOf_cons_self, Nat.add_zero]
    · have hne : (c == x) = false := beq_eq_false_iff_ne.mpr hcx
      have hne' : (x == c) = false := beq_eq_false_iff_ne.mpr (Ne.symm hcx)
      have hc' : c ∈ xs := by
        rcases List.mem_cons.mp hc with rfl | h
        · exact absurd rfl hcx
        · exact h
      simp only [List.lookup, hne]
      rw [ih (n + 1) c hc']
      rw [List.indexOf_cons_ne _ (fun he => hcx he.symm)]
      have harg : n + 1 + List.indexOf c xs = n + (List.indexOf c xs).succ := by omega
      rw [harg]


lemma indexOf_le_of_getElem {l : List String} {k : ℕ} {c : String}
    (hk : k < l.length) (he : l[k] = c) : l.indexOf c ≤ k := by
  induction l generalizing k with
  | nil => simp at hk
  | cons x xs ih =>
    by_cases hcx : c = x
    · subst hcx; rw [List.indexOf_cons_self]; exact Nat.zero_le _
    · cases k with
      | zero =>
        have hx : x = c := by simpa using he
        exact absurd hx.symm hcx
      | succ j =>
        rw [List.indexOf_cons_ne _ (fun hh => hcx hh.symm)]
        have hj : j < xs.length := by simpa using hk
        have he' : xs[j] = c := by simpa using he
        exact Nat.succ_le_succ (ih hj he')

lemma chunk_assoc_reverse (l : List String) :
    (l.enum.map fun p => (p.2, l.length - p.1)).reverse =
      (l.reverse.enumFrom 0).map fun p => (p.2, p.1 + 1) := by
  apply List.ext_getElem
  · simp
  · intro i h1 h2
    have hi : i < l.length := by simpa using h2
    simp only [List.getElem_reverse, List.getElem_map, List.getElem_enum,
      List.getElem_enumFrom, List.length_map, List.enum_length, Prod.mk.injEq]
    constructor
    · trivial
    · omega

/-- The content-keyed `chunk_positions` dictionary assigns to a retrieved
chunk the reversed position of its LAST occurrence, which is one more than
its index in the reversed list. -/
lemma chunk_positions_eq {l : List String} {c : String} (hc : c ∈ l) :
    chunk_positions l c = l.reverse.indexOf c + 1 := by
  have hc' : c ∈ l.reverse := List.mem_reverse.mpr hc
  have hl : ((l.reverse.enumFrom 0).map fun p => (p.2, p.1 + 1)).lookup c =
      some (0 + l.reverse.indexOf c + 1) :=
    lookup_enumFrom_map (fun k => k + 1) l.reverse 0 c hc'
  unfold chunk_positions
  rw [chunk_assoc_reverse, hl]
  simp

/-- `calculate_reciprocal_rank` returns `1/p` for `p` the minimum
dictionary position over the qualifying retrieved chunks (0 when none
qualifies). -/
lemma calculate_reciprocal_rank_eq (t sct : ℚ) (query : String)
    (retrieved reference : List String) (hr : retrieved ≠ [])
    (hR : get_relevant_chunks_for_query query reference ≠ []) :
    calculate_reciprocal_rank t sct query retrieved reference =
      match ((retrieved.filter fun c =>
          decide (mrrQualifies t sct (get_relevant_chunks_for_query query reference) c)).map
          (chunk_positions retrieved)).min? with
      | some p => 1 / (p : ℚ)
      | none => 0 := by
  unfold calculate_reciprocal_rank
  simp only []
  rw [if_neg hR, if_neg hr]
  rw [rr_foldl_char (mrrQualifies t sct (get_relevant_chunks_for_query query reference))
    (chunk_positions retrieved) retrieved none]

/-- **C3**: for a sample with non-empty retrieved (length `N`) and
reference lists, the reciprocal rank is `0` when no retrieved chunk
matches a BM25-qualifying reference chunk above the threshold; when some
chunk at index `i` qualifies, the reciprocal rank is `1/p` for `p` the
least reversed position `N - i` over the qualifying indices; and the
reciprocal rank always lies in `{0} ∪ {1/k : k = 1..N}`. -/
theorem C3_reciprocal_rank (t sct : ℚ) (query : String)
    (retrieved reference : List String)
    (hr : retrieved ≠ []) (hf : reference ≠ []) :
    ((∀ c ∈ retrieved,
        ¬ mrrQualifies t sct (get_relevant_chunks_for_query query reference) c) →
      calculate_reciprocal_rank t sct query retrieved reference = 0) ∧
    ((∃ i < retrieved.length,
        mrrQualifies t sct (get_relevant_chunks_for_query query reference)
          (retrieved.getD i "")) →
      ∃ p : ℕ,
        IsLeast {q : ℕ | ∃ i < retrieved.length,
          mrrQualifies t sct (get_relevant_chunks_for_query query reference)
            (retrieved.getD i "") ∧
          q = retrieved.length - i} p ∧
        calculate_reciprocal_rank t sct query retrieved reference = 1 / (p : ℚ)) ∧
    (calculate_reciprocal_rank t sct query retrieved reference = 0 ∨
      ∃ k : ℕ, 1 ≤ k ∧ k ≤ retrieved.length ∧
        calculate_reciprocal_rank t sct query retrieved reference = 1 / (k : ℚ)) := by
  by_cases hR : get_relevant_chunks_for_query query reference = []
  · have hrr : calculate_reciprocal_rank t sct query retrieved reference = 0 := by
      unfold calculate_reciprocal_rank
      simp only []
      rw [if_pos hR]
    refine ⟨fun _ => hrr, ?_, Or.inl hrr⟩
    rintro ⟨i, hi, hq⟩
    rw [hR] at hq
    rcases hq with ⟨r, hmem, _⟩
    simp at hmem
  · have heq := calculate_reciprocal_rank_eq t sct query retrieved reference hr hR
    cases hL : ((retrieved.filter fun c =>
        decide (mrrQualifies t sct (get_relevant_chunks_for_query query reference) c)).map
        (chunk_positions retrieved)).min? with
    | none =>
      have hLnil : ((retrieved.filter fun c =>
          decide (mrrQualifies t sct (get_relevant_chunks_for_query query reference) c)).map
          (chunk_positions retrieved)) = [] := List.min?_eq_none_iff.mp hL
      have hnoq : ∀ c ∈ retrieved,
          ¬ mrrQualifies t sct (get_relevant_chunks_for_query query reference) c := by
        intro c hc hq
        have hfil : c ∈ retrieved.filter fun c =>
            decide (mrrQualifies t sct (get_relevant_chunks_for_query query reference) c) :=
          List.mem_filter.mpr ⟨hc, decide_eq_true hq⟩
        have hmm : chunk_positions retrieved c ∈ ((retrieved.filter fun c =>
            decide (mrrQualifies t sct (get_relevant_chunks_for_query query reference) c)).map
            (chunk_positions retrieved)) := List.mem_map.mpr ⟨c, hfil, rfl⟩
        rw [hLnil] at hmm
        simp at hmm
      have hrr : calculate_reciprocal_rank t sct query retrieved reference = 0 := by
        rw [heq, hL]
      refine ⟨fun _ => hrr, ?_, Or.inl hrr⟩
      rintro ⟨i, hi, hq⟩
      have hgd : retrieved.getD i "" = retrieved[i] := List.getD_eq_getElem retrieved "" hi
      rw [hgd] at hq
      exact absurd hq (hnoq _ (List.getElem_mem hi))
    | some m =>
      obtain ⟨hmem, hlb⟩ := min?_spec hL
      obtain ⟨c, hcfil, hcpos⟩ := List.mem_map.mp hmem
      obtain ⟨hcret, hcq'⟩ := List.mem_filter.mp hcfil
      have hcq : mrrQualifies t sct (get_relevant_chunks_for_query query reference) c :=
        of_decide_eq_true hcq'
      have hNpos : 0 < retrieved.length := List.length_pos.mpr hr
      have hc' : c ∈ retrieved.reverse := List.mem_reverse.mpr hcret
      have hidxlt : retrieved.reverse.indexOf c < retrieved.length := by
        have h := List.indexOf_lt_length.mpr hc'
        simpa using h
      have hi0 : retrieved.length - 1 - retrieved.reverse.indexOf c < retrieved.length := by
        omega
      have hbidx : retrieved.reverse.indexOf c < retrieved.reverse.length := by
        simpa using hidxlt
      have hgetrev : retrieved.reverse[retrieved.reverse.indexOf c] =
          c := List.getElem_indexOf _
      rw [List.getElem_reverse] at hgetrev
      have hposc : chunk_positions retrieved c = retrieved.reverse.indexOf c + 1 :=
        chunk_positions_eq hcret
      have hm : m = retrieved.reverse.indexOf c + 1 := by rw [← hcpos, hposc]
      have hrr : calculate_reciprocal_rank t sct query retrieved reference = 1 / (m : ℚ) := by
        rw [heq, hL]
      have hmS : m ∈ {q : ℕ | ∃ i < retrieved.length,
          mrrQualifies t sct (get_relevant_chunks_for_query query reference)
            (retrieved.getD i "") ∧
          q = retrieved.length - i} := by
        refine ⟨retrieved.length - 1 - retrieved.reverse.indexOf c, hi0, ?_, by omega⟩
        rw [List.getD_eq_getElem retrieved "" hi0, hgetrev]
        exact hcq
      have hlbS : ∀ q ∈ {q : ℕ | ∃ i < retrieved.length,
          mrrQualifies t sct (get_relevant_chunks_for_query query reference)
            (retrieved.getD i "") ∧
          q = retrieved.length - i}, m ≤ q := by
        rintro q ⟨i, hi, hqual, rfl⟩
        have hgd : retrieved.getD i "" = retrieved[i] := List.getD_eq_getElem retrieved "" hi
        rw [hgd] at hqual
        have hc'mem : retrieved[i] ∈ retrieved := List.getElem_mem hi
        have hfil : retrieved[i] ∈ retrieved.filter fun c =>
            decide (mrrQualifies t sct (get_relevant_chunks_for_query query reference) c) :=
          List.mem_filter.mpr ⟨hc'mem, decide_eq_true hqual⟩
        have hLmem : chunk_positions retrieved (retrieved[i]) ∈ ((retrieved.filter fun c =>
            decide (mrrQualifies t sct (get_relevant_chunks_for_query query reference) c)).map
            (chunk_positions retrieved)) := List.mem_map.mpr ⟨_, hfil, rfl⟩
        have h1 : m ≤ chunk_positions retrieved (retrieved[i]) := hlb _ hLmem
        have h2 : chunk_positions retrieved (retrieved[i]) =
            retrieved.reverse.indexOf (retrieved[i]) + 1 := chunk_positions_eq hc'mem
        have hb : retrieved.length - 1 - i < retrieved.reverse.length := by simp; omega
        have hrev : retrieved.reverse[retrieved.length - 1 - i] = retrieved[i] := by
          rw [List.getElem_reverse]
          have hk : retrieved.length - 1 - (retrieved.length - 1 - i) = i := by omega
          simp only [hk]
        have hidx' : retrieved.reverse.indexOf (retrieved[i]) ≤ retrieved.length - 1 - i :=
          indexOf_le_of_getElem (by simpa using hb) hrev
        omega
      refine ⟨fun hno => absurd hcq (hno c hcret), fun _ => ⟨m, ⟨hmS, hlbS⟩, hrr⟩, ?_⟩
      exact Or.inr ⟨m, by omega, by omega, hrr⟩


/-- Witness for C3 at the concrete sample `query = "a"`,
`retrieved = ["a"]`, `reference = ["a"]`. -/
theorem C3_reciprocal_rank_witness :
    (["a"] : List String) ≠ [] ∧ (["a"] : List String) ≠ [] ∧
    (((∀ c ∈ (["a"] : List String),
        ¬ mrrQualifies (1/2) (9/10) (get_relevant_chunks_for_query "a" ["a"]) c) →
      calculate_reciprocal_rank (1/2) (9/10) "a" ["a"] ["a"] = 0) ∧
    ((∃ i < (["a"] : List String).length,
        mrrQualifies (1/2) (9/10) (get_relevant_chunks_for_query "a" ["a"])
          ((["a"] : List String).getD i "")) →
      ∃ p : ℕ,
        IsLeast {q : ℕ | ∃ i < (["a"] : List String).length,
          mrrQualifies (1/2) (9/10) (get_relevant_chunks_for_query "a" ["a"])
            ((["a"] : List String).getD i "") ∧
          q = (["a"] : List String).length - i} p ∧
        calculate_reciprocal_rank (1/2) (9/10) "a" ["a"] ["a"] = 1 / (p : ℚ)) ∧
    (calculate_reciprocal_rank (1/2) (9/10) "a" ["a"] ["a"] = 0 ∨
      ∃ k : ℕ, 1 ≤ k ∧ k ≤ (["a"] : List String).length ∧
        calculate_reciprocal_rank (1/2) (9/10) "a" ["a"] ["a"] = 1 / (k : ℚ))) :=
  ⟨by decide, by decide,
   C3_reciprocal_rank (1/2) (9/10) "a" ["a"] ["a"] (by decide) (by decide)⟩
